import Mathlib

set_option maxRecDepth 16000

/-!
Shallow embedding of the Tabular Result Interpretation Engine of
src/src/App.js (helpers at lines 83..199): value normalization
(toNumber), temporal parsing (monthIndex), column classification
(looksLikeTimeName, isTimeLikeAxis, nameMatches with pattern lists),
axis resolution (resolveAxes) and pivoting (pivotData).

JavaScript numbers are modelled as exact rationals; the records that
reach the engine are JSON-decoded, so they contain no NaN or Infinity,
and NaN produced by normalization is modelled as the none of Option.
-/

namespace GptSqlFrontend

/-- Scalar value of a record field, as delivered by the backend JSON:
number, string, boolean or null; undef models the JavaScript undefined
produced by reading an absent key. -/
inductive Value where
  | num (q : ℚ)
  | str (s : String)
  | boolV (b : Bool)
  | nullV
  | undefV
deriving DecidableEq, Repr

/-- A record is an ordered association list from column name to value,
mirroring a JavaScript object (keys unique, insertion ordered). -/
abbrev Record := List (String × Value)

/-- Reading a property of a record; an absent key reads as undefined,
as in JavaScript. -/
def getV (r : Record) (k : String) : Value :=
  match r.find? (fun p => decide (p.1 = k)) with
  | some p => p.2
  | none => .undefV

/-- Numeric value of a decimal digit character. -/
def digitVal (c : Char) : ℕ := c.toNat - 48

/-- Value of a list of decimal digit characters, most significant first. -/
def natOfDigits (ds : List Char) : ℕ :=
  ds.foldl (fun a c => a * 10 + digitVal c) 0

/-- Parse of a JavaScript string numeric literal restricted to the
character set that survives the cleaning in toNumber (digits, period,
minus): an optional leading minus, then either an integer part with an
optional fraction, or a bare fraction. Returns none where the
JavaScript Number conversion yields NaN. -/
def parseUnsigned (cs : List Char) : Option ℚ :=
  match cs.dropWhile Char.isDigit with
  | [] => if cs.takeWhile Char.isDigit = [] then none else some (natOfDigits (cs.takeWhile Char.isDigit))
  | '.' :: frac =>
      if frac.all Char.isDigit ∧ (cs.takeWhile Char.isDigit ≠ [] ∨ frac ≠ []) then
        some ((natOfDigits (cs.takeWhile Char.isDigit) : ℚ) + (natOfDigits frac : ℚ) / (10 ^ frac.length))
      else none
  | _ => none

/-- JavaScript Number() applied to the cleaned character list: the empty
string converts to 0, a single leading minus negates, anything else goes
through parseUnsigned. -/
def jsNum : List Char → Option ℚ
  | [] => some 0
  | c :: rest =>
      if c = '-' then (parseUnsigned rest).map (fun q => -q)
      else parseUnsigned (c :: rest)

/-- Model of toNumber (App.js line 83): a number is returned unchanged; a
string is stripped of every character that is not a digit, comma, period
or minus, commas are removed, and the remainder is converted with the
JavaScript Number semantics; every other input yields NaN (none). The
whitespace removal step of the source is a no-op because whitespace never
survives the first strip. -/
def toNumber : Value → Option ℚ
  | .num q => some q
  | .str s =>
      let kept := s.toList.filter (fun c => c.isDigit || c = '.' || c = ',' || c = '-')
      let cleaned := kept.filter (fun c => !(c = ','))
      jsNum cleaned
  | _ => none

/-- Lowercasing of a string, character by character, as the JavaScript
toLowerCase on the ASCII names and patterns this engine compares. -/
def lowerStr (s : String) : String := String.mk (s.toList.map Char.toLower)

/-- Three-letter month abbreviations, as in App.js line 104. -/
def MONTHS3 : List String :=
  ["Jan", "Feb", "Mar", "Apr", "May", "Jun", "Jul", "Aug", "Sep", "Oct", "Nov", "Dec"]

/-- Full month names used by fullTo3. -/
def FULLMONTHS : List String :=
  ["January", "February", "March", "April", "May", "June", "July", "August",
   "September", "October", "November", "December"]

/-- Model of fullTo3 (App.js line 105): case-insensitive lookup of a full
month name, yielding its three-letter abbreviation, else null. -/
def fullTo3 (m : String) : Option String :=
  match FULLMONTHS.findIdx? (fun x => decide (lowerStr x = lowerStr m)) with
  | some idx => some (MONTHS3.getD idx "")
  | none => none

/-- Case-sensitive index of a string in MONTHS3, as Array.indexOf. -/
def monthsIdx (w : String) : Option ℕ :=
  MONTHS3.findIdx? (fun m => decide (m = w))

/-- Whitespace class of the JavaScript regular expressions and trim, on
the ASCII range. -/
def isJsSpace (c : Char) : Bool :=
  c = ' ' || c = '\t' || c = '\n' || c = '\r' || c = '\x0b' || c = '\x0c'

/-- Trim of leading and trailing whitespace on a character list. -/
def trimChars (cs : List Char) : List Char :=
  ((cs.dropWhile isJsSpace).reverse.dropWhile isJsSpace).reverse

/-- Shape 1 of monthIndex: three letters, whitespace, four digits. An
abbreviation that is not a known month falls back to month offset 0, as
the source maps a negative indexOf to 0. -/
def monShape (cs : List Char) : Option ℤ :=
  if (cs.takeWhile Char.isAlpha).length = 3 ∧
      (cs.dropWhile Char.isAlpha).takeWhile isJsSpace ≠ [] ∧
      ((cs.dropWhile Char.isAlpha).dropWhile isJsSpace).length = 4 ∧
      ((cs.dropWhile Char.isAlpha).dropWhile isJsSpace).all Char.isDigit then
    some ((natOfDigits ((cs.dropWhile Char.isAlpha).dropWhile isJsSpace) : ℤ) * 12 +
      ((monthsIdx (String.mk (cs.takeWhile Char.isAlpha))).getD 0 : ℕ))
  else none

/-- Shape 2 of monthIndex: one or more letters, whitespace, four digits;
the word goes through fullTo3, else its first three letters, and an
unknown abbreviation again falls back to month offset 0. -/
def fullShape (cs : List Char) : Option ℤ :=
  if cs.takeWhile Char.isAlpha ≠ [] ∧
      (cs.dropWhile Char.isAlpha).takeWhile isJsSpace ≠ [] ∧
      ((cs.dropWhile Char.isAlpha).dropWhile isJsSpace).length = 4 ∧
      ((cs.dropWhile Char.isAlpha).dropWhile isJsSpace).all Char.isDigit then
    some ((natOfDigits ((cs.dropWhile Char.isAlpha).dropWhile isJsSpace) : ℤ) * 12 +
      ((monthsIdx (match fullTo3 (String.mk (cs.takeWhile Char.isAlpha)) with
        | some a => a
        | none => String.mk ((cs.takeWhile Char.isAlpha).take 3))).getD 0 : ℕ))
  else none

/-- Shape 3 of monthIndex: four digit year, dash, two digit month; the
month is not range-checked, so the result is year times 12 plus month
minus one even for months 00 or 13..99. -/
def dashShape : List Char → Option ℤ
  | [a, b, c, d, dash, e, f] =>
      if a.isDigit ∧ b.isDigit ∧ c.isDigit ∧ d.isDigit ∧ dash = '-' ∧ e.isDigit ∧ f.isDigit then
        some ((natOfDigits [a, b, c, d] : ℤ) * 12 + (natOfDigits [e, f] : ℤ) - 1)
      else none
  | _ => none

/-- Shape 4 of monthIndex: two digit month, slash, four digit year. -/
def slashShape : List Char → Option ℤ
  | [e, f, slash, a, b, c, d] =>
      if e.isDigit ∧ f.isDigit ∧ slash = '/' ∧ a.isDigit ∧ b.isDigit ∧ c.isDigit ∧ d.isDigit then
        some ((natOfDigits [a, b, c, d] : ℤ) * 12 + (natOfDigits [e, f] : ℤ) - 1)
      else none
  | _ => none

/-- Shape 5 of monthIndex: a bare four digit year, mapped to month 0. -/
def yearShape : List Char → Option ℤ
  | [a, b, c, d] =>
      if a.isDigit ∧ b.isDigit ∧ c.isDigit ∧ d.isDigit then
        some ((natOfDigits [a, b, c, d] : ℤ) * 12)
      else none
  | _ => none

/-- The five temporal shapes tried in source order on an already
trimmed character list. -/
def monthIndexL (t : List Char) : Option ℤ :=
  match monShape t with
  | some k => some k
  | none =>
    match fullShape t with
    | some k => some k
    | none =>
      match dashShape t with
      | some k => some k
      | none =>
        match slashShape t with
        | some k => some k
        | none => yearShape t

/-- Model of monthIndex (App.js line 110): the five temporal shapes are
tried in source order on the trimmed input; none models the sentinel
positive Infinity of the source. -/
def monthIndex (s : String) : Option ℤ :=
  monthIndexL (trimChars s.toList)

/-- Time words of the looksLikeTimeName pattern, as character lists. -/
def timeWords : List (List Char) :=
  ["month".toList, "date".toList, "period".toList, "quarter".toList, "year".toList]

/-- End of a token: end of the name or an underscore, the closing
alternative of the looksLikeTimeName pattern. -/
def tokenEnd : List Char → Bool
  | [] => true
  | c :: _ => c = '_'

/-- Does a time word, optionally followed by the letter s, start at this
position and end at a token boundary. -/
def timeWordAt (cs : List Char) : Bool :=
  timeWords.any (fun w =>
    w.isPrefixOf cs &&
      (tokenEnd (cs.drop w.length) ||
        (match cs.drop w.length with
         | 's' :: rest => tokenEnd rest
         | _ => false)))

/-- Scan of the lowercased name: a match may start at the beginning or
right after an underscore. -/
def timeScan : List Char → Bool → Bool
  | [], atB => atB && timeWordAt []
  | c :: rest, atB => (atB && timeWordAt (c :: rest)) || timeScan rest (c = '_')

/-- Model of looksLikeTimeName (App.js line 123): the name contains one
of month, date, period, quarter, year, optionally pluralized, delimited
by the start or end of the name or underscores, case-insensitively. -/
def looksLikeTimeName (name : String) : Bool :=
  timeScan (name.toList.map Char.toLower) true

/-- A column-name pattern of the source: either an anchored exact regular
expression or an unanchored substring one, tested case-insensitively. -/
inductive Pat where
  | exact (w : String)
  | sub (w : String)

/-- Case-insensitive substring test on character lists. -/
def containsSub (w : List Char) : List Char → Bool
  | [] => w.isPrefixOf ([] : List Char)
  | c :: t => w.isPrefixOf (c :: t) || containsSub w t

/-- Test of one pattern against a name, case-insensitively. -/
def patTest (p : Pat) (s : String) : Bool :=
  match p with
  | .exact w => decide (lowerStr s = w)
  | .sub w => containsSub w.toList (s.toList.map Char.toLower)

/-- Model of nameMatches (App.js line 132): some pattern of the list
matches the name. -/
def nameMatches (pats : List Pat) (s : String) : Bool :=
  pats.any (fun p => patTest p s)

/-- Time-name candidate patterns for the x-axis (App.js line 147). -/
def timeCandidates : List Pat :=
  [.exact "month", .sub "month", .sub "date", .sub "period", .sub "quarter", .exact "year"]

/-- Geography patterns (App.js line 151). -/
def geoPrefs : List Pat :=
  [.exact "region", .sub "region", .exact "branch", .sub "branch_name",
   .sub "city", .sub "country", .sub "location"]

/-- Product and category patterns (App.js line 152). -/
def productPrefs : List Pat :=
  [.exact "product_category", .sub "product_category", .exact "category", .sub "category",
   .exact "product", .sub "model", .sub "product_name", .sub "product"]

/-- Metric keyword patterns (App.js line 163). -/
def metricPref : List Pat :=
  [.sub "revenue_rm", .sub "revenue", .sub "total_amount", .sub "price", .sub "sales",
   .sub "total", .sub "total_sales", .sub "quantity", .sub "qty", .sub "count"]

/-- Model of the JavaScript String() conversion on record values. It is
exact on strings, booleans, null, undefined, and integer numbers; a
non-integer rational is rendered with a decimal point between numerator
and denominator, which like every JavaScript decimal rendering matches no
temporal shape. -/
def jsToString : Value → String
  | .num q => if q.den = 1 then toString q.num else toString q.num ++ "." ++ toString q.den
  | .str s => s
  | .boolV b => if b then "true" else "false"
  | .nullV => "null"
  | .undefV => "undefined"

/-- The nullish coalescing of the source, v ?? the empty string. -/
def orEmpty : Value → Value
  | .nullV => .str ""
  | .undefV => .str ""
  | v => v

/-- Ceiling of sixty percent of n, matching Math.ceil(n * 0.6) for the
sample sizes (at most 15) that reach it. -/
def ceil60 (n : ℕ) : ℕ := (3 * n + 4) / 5

/-- Model of isTimeLikeAxis (App.js line 124): a null or empty name is
not time-like; a time-looking name is; otherwise at least sixty percent
(rounded up) of up to the first fifteen sample values, converted through
String(v ?? the empty string), must parse to a finite month index. -/
def isTimeLikeAxis (name : Option String) (sampleValues : List Value) : Bool :=
  match name with
  | none => false
  | some n =>
    if n = "" then false
    else if looksLikeTimeName n then true
    else
      let toCheck := sampleValues.take 15
      let parsed := (toCheck.filter
        (fun v => (monthIndex (jsToString (orEmpty v))).isSome)).length
      decide (parsed ≥ ceil60 (max toCheck.length 1))

/-- JavaScript truthiness of a string-or-null variable: null, undefined
and the empty string are falsy. -/
def isTruthy : Option String → Bool
  | none => false
  | some s => !(s = "")

/-- The JavaScript or on string-or-null values: keep the left operand
when truthy, else the right one. -/
def orJS (a b : Option String) : Option String :=
  if isTruthy a then a else b

/-- Property key used by the optional access with a possibly null key:
a null key reads the property named null. -/
def propKey : Option String → String
  | some k => k
  | none => "null"

/-- Column list of the sample record, in insertion order. -/
def colsOf (sample : Record) : List String := sample.map (fun p => p.1)

/-- A column is numeric when the sample value normalizes to a finite
number (App.js line 141). -/
def isNumCol (sample : Record) (c : String) : Bool :=
  (toNumber (getV sample c)).isSome

/-- The sample record: the first record of the result set. -/
def sampleOf (rows : List Record) : Record := rows.headD []

/-- Non-numeric columns of the sample, in column order. -/
def nonNumColsOf (sample : Record) : List String :=
  (colsOf sample).filter (fun c => !isNumCol sample c)

/-- Numeric columns of the sample, in column order. -/
def numColsOf (sample : Record) : List String :=
  (colsOf sample).filter (fun c => isNumCol sample c)

/-- The first column whose name matches the time candidates. -/
def timeColOf (sample : Record) : Option String :=
  (colsOf sample).find? (nameMatches timeCandidates)

/-- The first column whose name matches the geography patterns. -/
def geoColOf (sample : Record) : Option String :=
  (colsOf sample).find? (nameMatches geoPrefs)

/-- The first column whose name matches the product patterns. -/
def productColOf (sample : Record) : Option String :=
  (colsOf sample).find? (nameMatches productPrefs)

/-- The first numeric column whose name matches a metric keyword. -/
def metricColOf (sample : Record) : Option String :=
  (colsOf sample).find? (fun c => nameMatches metricPref c && isNumCol sample c)

/-- The candidate x-axis before the disambiguation swap (App.js lines
147..156): the first time-named column, else the first geography column,
else the first non-numeric time-looking column, else the first
non-numeric column, else null. -/
def preX (rows : List Record) : Option String :=
  if isTruthy (timeColOf (sampleOf rows)) then timeColOf (sampleOf rows)
  else
    orJS (geoColOf (sampleOf rows))
      (orJS ((nonNumColsOf (sampleOf rows)).find? looksLikeTimeName)
        (orJS (nonNumColsOf (sampleOf rows)).head? none))

/-- The candidate series before the swap (App.js lines 158..161): the
product column when distinct from the x-axis, else the geography column
when distinct, else the first non-numeric column different from the
x-axis, else null. -/
def preSeries (rows : List Record) : Option String :=
  if isTruthy (preX rows) ∧ isTruthy (productColOf (sampleOf rows)) ∧
      productColOf (sampleOf rows) ≠ preX rows then productColOf (sampleOf rows)
  else if isTruthy (preX rows) ∧ isTruthy (geoColOf (sampleOf rows)) ∧
      geoColOf (sampleOf rows) ≠ preX rows then geoColOf (sampleOf rows)
  else orJS ((nonNumColsOf (sampleOf rows)).find? (fun c => decide (some c ≠ preX rows))) none

/-- The metric column (App.js lines 163..165): the first column in
column order that matches some metric keyword and is numeric, else the
first numeric column, else null. -/
def preY (rows : List Record) : Option String :=
  if isTruthy (metricColOf (sampleOf rows)) then metricColOf (sampleOf rows)
  else orJS (numColsOf (sampleOf rows)).head? none

/-- Result of axis resolution. -/
structure AxesResult where
  xKey : Option String
  seriesKey : Option String
  yKey : Option String
  isMulti : Bool
deriving DecidableEq, Repr

/-- The sample values handed to the time-likeness test of the chosen
x-axis: the first twenty rows read at the x key (App.js line 168). -/
def xSamplesOf (rows : List Record) (xKey : Option String) : List Value :=
  (rows.take 20).map (fun r => getV r (propKey xKey))

/-- The swap condition (App.js line 169): the x-axis is not time-like,
its name does not match geography keywords, and the series name does. -/
def swapCond (rows : List Record) (xKey seriesKey : Option String) : Bool :=
  !isTimeLikeAxis xKey (xSamplesOf rows xKey) &&
    !nameMatches geoPrefs (xKey.getD "") && nameMatches geoPrefs (seriesKey.getD "")

/-- The x-axis after the disambiguation swap. -/
def postX (rows : List Record) : Option String :=
  if swapCond rows (preX rows) (preSeries rows) then preSeries rows else preX rows

/-- The series after the disambiguation swap. -/
def postS (rows : List Record) : Option String :=
  if swapCond rows (preX rows) (preSeries rows) then preX rows else preSeries rows

/-- The multi-series flag (App.js line 173): truthy distinct x and
series keys, a truthy metric key, and a finite sample metric value. -/
def isMultiOf (rows : List Record) : Bool :=
  isTruthy (postX rows) && isTruthy (postS rows) && isTruthy (preY rows) &&
    decide (postX rows ≠ postS rows) &&
    (toNumber (getV (sampleOf rows) ((preY rows).getD ""))).isSome

/-- Model of resolveAxes (App.js line 135): on an empty result set all
roles are null and isMulti is false; otherwise the pre-swap candidates
are computed from the first record and the disambiguation swap is
applied. -/
def resolveAxes (rows : List Record) : AxesResult :=
  if rows.isEmpty then ⟨none, none, none, false⟩
  else ⟨postX rows, postS rows, preY rows, isMultiOf rows⟩

/-- A wide row of the pivot output: an insertion-ordered object. -/
abbrev WideRow := List (String × Value)

/-- Object property assignment: an existing key is updated in place, a
new key is appended. -/
def setField (w : WideRow) (k : String) (v : Value) : WideRow :=
  match w with
  | [] => [(k, v)]
  | (k0, v0) :: t => if k0 = k then (k0, v) :: t else (k0, v0) :: setField t k v

/-- Property read on a wide row. -/
def lookupField (w : WideRow) (k : String) : Option Value :=
  (w.find? (fun p => decide (p.1 = k))).map (fun p => p.2)

/-- Insertion-ordered set add, as the JavaScript Set. -/
def addSet (l : List Value) (x : Value) : List Value :=
  if x ∈ l then l else l ++ [x]

/-- Read of the insertion-ordered map keyed by x values. -/
def mapGetW (m : List (Value × WideRow)) (x : Value) : Option WideRow :=
  (m.find? (fun p => decide (p.1 = x))).map (fun p => p.2)

/-- Update of the entry of an existing key of the map. -/
def mapUpdateW (m : List (Value × WideRow)) (x : Value) (f : WideRow → WideRow) :
    List (Value × WideRow) :=
  match m with
  | [] => []
  | (x0, w) :: t => if x0 = x then (x0, f w) :: t else (x0, w) :: mapUpdateW t x f

/-- Accumulator state of the pivot loop: the x-value set, the series
set, and the map from x value to wide row, all insertion ordered. -/
structure PivotState where
  xs : List Value
  series : List Value
  map : List (Value × WideRow)
deriving DecidableEq, Repr

/-- One iteration of the pivot loop (App.js lines 181..188): ensure a
wide row for the x value exists, write the normalized metric (0 when not
finite) under the series value rendered as a property key, and record
the x and series values in their sets. -/
def pivotStep (xKey seriesKey yKey : String) (st : PivotState) (r : Record) : PivotState :=
  let x := getV r xKey
  let s := getV r seriesKey
  let v := toNumber (getV r yKey)
  let m1 := if (mapGetW st.map x).isSome then st.map else st.map ++ [(x, [(xKey, x)])]
  let m2 := mapUpdateW m1 x (fun w => setField w (jsToString s) (.num (v.getD 0)))
  ⟨addSet st.xs x, addSet st.series s, m2⟩

/-- Model of the locale-aware string comparison of the host: compare the
case-folded strings lexicographically, tie-broken by the raw strings. On
the ASCII names of this development it agrees with the default locale
collation. -/
def lcCompare (a b : String) : ℤ :=
  if a.toList.map Char.toLower < b.toList.map Char.toLower then -1
  else if b.toList.map Char.toLower < a.toList.map Char.toLower then 1
  else if a.toList < b.toList then -1
  else if b.toList < a.toList then 1
  else 0

/-- The comparator of the pivot sort (App.js lines 190..197): finite
month indexes compare by difference, a finite index sorts before the
sentinel, two sentinels compare by the locale comparison of the
stringified values. -/
def pivotCmp (a b : Value) : ℤ :=
  match monthIndex (jsToString a), monthIndex (jsToString b) with
  | some i, some j => i - j
  | some _, none => -1
  | none, some _ => 1
  | none, none => lcCompare (jsToString a) (jsToString b)

/-- Stable insertion of an element into an already processed prefix: the
element passes every earlier element it does not strictly precede. -/
def insertSorted (a : Value) : List Value → List Value
  | [] => [a]
  | b :: t => if pivotCmp a b < 0 then a :: b :: t else b :: insertSorted a t

/-- Stable sort by the pivot comparator, modelling the sort of the
JavaScript array with a consistent comparator. -/
def sortJS (l : List Value) : List Value :=
  l.foldl (fun acc a => insertSorted a acc) []

/-- Result of pivoting. -/
structure PivotResult where
  data : List WideRow
  series : List Value
deriving DecidableEq, Repr

/-- Model of pivotData (App.js line 177): fold the rows through the
pivot loop, sort the distinct x values with the pivot comparator, and
emit one wide row per x value together with the series list in
first-seen order. -/
def pivotData (rows : List Record) (xKey seriesKey yKey : String) : PivotResult :=
  let st := rows.foldl (pivotStep xKey seriesKey yKey) ⟨[], [], []⟩
  ⟨(sortJS st.xs).map (fun x => (mapGetW st.map x).getD []), st.series⟩

/-! Shared helper lemmas. -/

theorem headOpt_mem {α : Type} {l : List α} {a : α} (h : l.head? = some a) : a ∈ l := by
  cases l with
  | nil => simp at h
  | cons b t => simp at h; simp [h]

theorem orJS_eq_some {a b : Option String} {k : String} (h : orJS a b = some k) :
    a = some k ∨ b = some k := by
  unfold orJS at h
  by_cases ht : isTruthy a = true
  · simp [ht] at h; exact Or.inl h
  · simp [ht] at h; exact Or.inr h

theorem find_eq_head_filter {α : Type} (p : α → Bool) (l : List α) :
    l.find? p = (l.filter p).head? := by
  induction l with
  | nil => rfl
  | cons a t ih =>
      by_cases h : p a = true
      · simp only [List.find?_cons, List.filter_cons, h]; rfl
      · simp only [List.find?_cons, List.filter_cons, h, if_false, Bool.false_eq_true,
          if_neg (fun hh => h hh)]
        exact ih

theorem resolveAxes_cons (r : Record) (t : List Record) :
    resolveAxes (r :: t) = ⟨postX (r :: t), postS (r :: t), preY (r :: t), isMultiOf (r :: t)⟩ :=
  rfl

theorem toNat_lit_48 : ((48 : UInt32)).toBitVec.toNat = 48 := rfl

theorem toNat_lit_57 : ((57 : UInt32)).toBitVec.toNat = 57 := rfl

theorem toNat_lit_65 : ((65 : UInt32)).toBitVec.toNat = 65 := rfl

theorem toNat_lit_90 : ((90 : UInt32)).toBitVec.toNat = 90 := rfl

theorem toNat_lit_97 : ((97 : UInt32)).toBitVec.toNat = 97 := rfl

theorem toNat_lit_122 : ((122 : UInt32)).toBitVec.toNat = 122 := rfl

theorem toNat_space : (' ').val.toBitVec.toNat = 32 := rfl

theorem toNat_tab : ('\t').val.toBitVec.toNat = 9 := rfl

theorem toNat_nl : ('\n').val.toBitVec.toNat = 10 := rfl

theorem toNat_cr : ('\r').val.toBitVec.toNat = 13 := rfl

theorem toNat_vt : ('\x0b').val.toBitVec.toNat = 11 := rfl

theorem toNat_ff : ('\x0c').val.toBitVec.toNat = 12 := rfl

theorem digit_not_alpha {c : Char} (h : c.isDigit = true) : c.isAlpha = false := by
  simp only [Char.isDigit, Char.isAlpha, Char.isUpper, Char.isLower, Bool.and_eq_true,
    decide_eq_true_eq, Bool.or_eq_false_iff, Bool.and_eq_false_iff,
    decide_eq_false_iff_not, not_le,
    UInt32.le_def, BitVec.le_def, toNat_lit_48, toNat_lit_57, toNat_lit_65,
    toNat_lit_90, toNat_lit_97, toNat_lit_122] at *
  omega

theorem digit_not_space {c : Char} (h : c.isDigit = true) : isJsSpace c = false := by
  simp only [Char.isDigit, isJsSpace, Bool.and_eq_true, decide_eq_true_eq,
    Bool.or_eq_false_iff, UInt32.le_def, BitVec.le_def, Char.ext_iff, UInt32.ext_iff,
    UInt32.toNat, decide_eq_false_iff_not, toNat_lit_48, toNat_lit_57, toNat_space,
    toNat_tab, toNat_nl, toNat_cr, toNat_vt, toNat_ff] at *
  omega

theorem alpha_not_space {c : Char} (h : c.isAlpha = true) : isJsSpace c = false := by
  simp only [Char.isAlpha, Char.isUpper, Char.isLower, isJsSpace, Bool.and_eq_true,
    Bool.or_eq_true, decide_eq_true_eq, Bool.or_eq_false_iff, UInt32.le_def, BitVec.le_def,
    Char.ext_iff, UInt32.ext_iff, UInt32.toNat, decide_eq_false_iff_not,
    toNat_lit_65, toNat_lit_90, toNat_lit_97, toNat_lit_122, toNat_space,
    toNat_tab, toNat_nl, toNat_cr, toNat_vt, toNat_ff] at *
  omega

theorem takeWhile_nil_of_head {p : Char → Bool} {l : List Char}
    (h : ∀ c, l.head? = some c → p c = false) : l.takeWhile p = [] := by
  cases l with
  | nil => rfl
  | cons c t => simp [List.takeWhile_cons, h c rfl]

theorem dropWhile_self_of_head {p : Char → Bool} {l : List Char}
    (h : ∀ c, l.head? = some c → p c = false) : l.dropWhile p = l := by
  cases l with
  | nil => rfl
  | cons c t => simp [List.dropWhile_cons, h c rfl]

theorem trimChars_eq_self {l : List Char}
    (h1 : ∀ c, l.head? = some c → isJsSpace c = false)
    (h2 : ∀ c, l.getLast? = some c → isJsSpace c = false) : trimChars l = l := by
  unfold trimChars
  rw [dropWhile_self_of_head h1]
  rw [dropWhile_self_of_head (fun c hc => h2 c (by rwa [List.head?_reverse] at hc))]
  exact List.reverse_reverse l

theorem takeWhile_append_all (p : Char → Bool) (w rest : List Char)
    (hw : ∀ c ∈ w, p c = true) (hr : ∀ c, rest.head? = some c → p c = false) :
    (w ++ rest).takeWhile p = w ∧ (w ++ rest).dropWhile p = rest := by
  induction w with
  | nil => exact ⟨takeWhile_nil_of_head hr, dropWhile_self_of_head hr⟩
  | cons c t ih =>
      have hc : p c = true := hw c (List.mem_cons_self c t)
      have iht := ih (fun x hx => hw x (List.mem_cons_of_mem c hx))
      simp only [List.cons_append, List.takeWhile_cons, List.dropWhile_cons, hc, if_true]
      exact ⟨by rw [iht.1], iht.2⟩

theorem findIdxOpt_lt_length {α : Type} {p : α → Bool} {l : List α} :
    ∀ {i j : ℕ}, l.findIdx? p i = some j → j < i + l.length := by
  induction l with
  | nil => intro i j h; simp [List.findIdx?] at h
  | cons a t ih =>
      intro i j h
      rw [List.findIdx?_cons] at h
      by_cases hp : p a = true
      · rw [if_pos hp] at h
        injection h with h
        simp [← h]
      · rw [if_neg hp] at h
        have := ih h
        simp only [List.length_cons]
        omega

theorem headOpt_cons_digit_not_space {c : Char} {t : List Char} (h : c.isDigit = true) :
    ∀ x, (c :: t).head? = some x → isJsSpace x = false := by
  intro x hx
  simp only [List.head?_cons, Option.some.injEq] at hx
  subst hx
  exact digit_not_space h

theorem monShape_none_of_digit_head {c : Char} {t : List Char} (h : c.isDigit = true) :
    monShape (c :: t) = none := by
  unfold monShape
  rw [if_neg]
  intro hcond
  have h1 := hcond.1
  rw [takeWhile_nil_of_head (fun x hx => by
    simp only [List.head?_cons, Option.some.injEq] at hx
    subst hx
    exact digit_not_alpha h)] at h1
  simp at h1

theorem fullShape_none_of_digit_head {c : Char} {t : List Char} (h : c.isDigit = true) :
    fullShape (c :: t) = none := by
  unfold fullShape
  rw [if_neg]
  intro hcond
  have h1 := hcond.1
  rw [takeWhile_nil_of_head (fun x hx => by
    simp only [List.head?_cons, Option.some.injEq] at hx
    subst hx
    exact digit_not_alpha h)] at h1
  simp at h1

/-! Claim theorems. -/

/-- C7: resolve applied to the empty result set returns all-null role
fields and a false multi-series flag, and (being a total function) does
not raise. -/
theorem c7_empty_result_degrades :
    resolveAxes [] = ⟨none, none, none, false⟩ := rfl

/-- C8: the abbreviated-month, year-dash-month and month-slash-year
renderings of January 2024 all map to the same linear month ordinal
2024 * 12 + 0; and for every four digit year the three renderings of
January of that year agree on the ordinal year times 12. -/
theorem c8_cross_format_agreement :
    (monthIndex "Jan 2024" = some (2024 * 12 + 0) ∧
      monthIndex "2024-01" = some (2024 * 12 + 0) ∧
      monthIndex "01/2024" = some (2024 * 12 + 0)) ∧
    ∀ d1 d2 d3 d4 : Char,
      d1.isDigit = true → d2.isDigit = true → d3.isDigit = true → d4.isDigit = true →
      monthIndex (String.mk ['J', 'a', 'n', ' ', d1, d2, d3, d4]) =
        some ((natOfDigits [d1, d2, d3, d4] : ℤ) * 12) ∧
      monthIndex (String.mk [d1, d2, d3, d4, '-', '0', '1']) =
        some ((natOfDigits [d1, d2, d3, d4] : ℤ) * 12) ∧
      monthIndex (String.mk ['0', '1', '/', d1, d2, d3, d4]) =
        some ((natOfDigits [d1, d2, d3, d4] : ℤ) * 12) := by
  refine ⟨by decide, ?_⟩
  intro d1 d2 d3 d4 h1 h2 h3 h4
  have hsp1 : ((' ' :: [d1, d2, d3, d4] : List Char)).takeWhile isJsSpace = [' '] := by
    rw [List.takeWhile_cons, if_pos (by decide : isJsSpace ' ' = true),
      takeWhile_nil_of_head (headOpt_cons_digit_not_space h1)]
  have hsp2 : ((' ' :: [d1, d2, d3, d4] : List Char)).dropWhile isJsSpace = [d1, d2, d3, d4] := by
    rw [List.dropWhile_cons, if_pos (by decide : isJsSpace ' ' = true)]
    exact dropWhile_self_of_head (headOpt_cons_digit_not_space h1)
  refine ⟨?_, ?_, ?_⟩
  · have hspan := takeWhile_append_all Char.isAlpha ['J', 'a', 'n'] (' ' :: [d1, d2, d3, d4])
      (by decide)
      (fun c hc => by
        simp only [List.head?_cons, Option.some.injEq] at hc
        subst hc
        decide)
    have htrim : trimChars (['J', 'a', 'n'] ++ ' ' :: [d1, d2, d3, d4]) =
        ['J', 'a', 'n'] ++ ' ' :: [d1, d2, d3, d4] := by
      apply trimChars_eq_self
      · intro c hc
        rw [List.head?_append_of_ne_nil ['J', 'a', 'n'] (by decide)] at hc
        simp only [List.head?_cons, Option.some.injEq] at hc
        subst hc
        decide
      · intro c hc
        rw [List.getLast?_append] at hc
        have hlast : ((' ' :: [d1, d2, d3, d4] : List Char)).getLast? = some d4 := rfl
        rw [hlast] at hc
        have : some d4 = some c := by
          rw [← hc]
          rfl
        injection this with this
        subst this
        exact digit_not_space h4
    have hmon : monShape (['J', 'a', 'n'] ++ ' ' :: [d1, d2, d3, d4]) =
        some ((natOfDigits [d1, d2, d3, d4] : ℤ) * 12 +
          ((monthsIdx (String.mk ['J', 'a', 'n'])).getD 0 : ℕ)) := by
      unfold monShape
      rw [hspan.1, hspan.2, hsp1, hsp2]
      rw [if_pos ⟨by decide, by simp, rfl, by simp [h1, h2, h3, h4]⟩]
    have hidx : ((monthsIdx (String.mk ['J', 'a', 'n'])).getD 0 : ℕ) = 0 := by decide
    show monthIndexL (trimChars (String.mk
      (['J', 'a', 'n'] ++ ' ' :: [d1, d2, d3, d4])).toList) = _
    rw [show (String.mk (['J', 'a', 'n'] ++ ' ' :: [d1, d2, d3, d4])).toList =
      ['J', 'a', 'n'] ++ ' ' :: [d1, d2, d3, d4] from rfl, htrim]
    unfold monthIndexL
    rw [hmon, hidx]
    norm_num
  · have htrim : trimChars [d1, d2, d3, d4, '-', '0', '1'] = [d1, d2, d3, d4, '-', '0', '1'] := by
      apply trimChars_eq_self (headOpt_cons_digit_not_space h1)
      intro c hc
      have hlast : ([d1, d2, d3, d4, '-', '0', '1'] : List Char).getLast? = some '1' := rfl
      rw [hlast] at hc
      injection hc with hc
      subst hc
      decide
    have hdash : dashShape [d1, d2, d3, d4, '-', '0', '1'] =
        some ((natOfDigits [d1, d2, d3, d4] : ℤ) * 12 + (natOfDigits ['0', '1'] : ℤ) - 1) := by
      simp only [dashShape]
      rw [if_pos ⟨h1, h2, h3, h4, by trivial, by decide, by decide⟩]
    show monthIndexL (trimChars (String.mk [d1, d2, d3, d4, '-', '0', '1']).toList) = _
    rw [show (String.mk [d1, d2, d3, d4, '-', '0', '1']).toList =
      [d1, d2, d3, d4, '-', '0', '1'] from rfl, htrim]
    unfold monthIndexL
    rw [monShape_none_of_digit_head h1, fullShape_none_of_digit_head h1, hdash]
    norm_num [natOfDigits, List.foldl, digitVal,
      show ((('0' : Char).toNat - 48) : ℕ) = 0 from rfl,
      show ((('1' : Char).toNat - 48) : ℕ) = 1 from rfl]
  · have htrim : trimChars ['0', '1', '/', d1, d2, d3, d4] = ['0', '1', '/', d1, d2, d3, d4] := by
      apply trimChars_eq_self (headOpt_cons_digit_not_space (by decide))
      intro c hc
      have hlast : (['0', '1', '/', d1, d2, d3, d4] : List Char).getLast? = some d4 := rfl
      rw [hlast] at hc
      injection hc with hc
      subst hc
      exact digit_not_space h4
    have hdash : dashShape ['0', '1', '/', d1, d2, d3, d4] = none := by
      simp only [dashShape]
      rw [if_neg]
      intro hcond
      have := hcond.2.2.1
      simp at this
    have hslash : slashShape ['0', '1', '/', d1, d2, d3, d4] =
        some ((natOfDigits [d1, d2, d3, d4] : ℤ) * 12 + (natOfDigits ['0', '1'] : ℤ) - 1) := by
      simp only [slashShape]
      rw [if_pos ⟨by decide, by decide, by trivial, h1, h2, h3, h4⟩]
    show monthIndexL (trimChars (String.mk ['0', '1', '/', d1, d2, d3, d4]).toList) = _
    rw [show (String.mk ['0', '1', '/', d1, d2, d3, d4]).toList =
      ['0', '1', '/', d1, d2, d3, d4] from rfl, htrim]
    unfold monthIndexL
    rw [monShape_none_of_digit_head (by decide), fullShape_none_of_digit_head (by decide),
      hdash, hslash]
    norm_num [natOfDigits, List.foldl, digitVal,
      show ((('0' : Char).toNat - 48) : ℕ) = 0 from rfl,
      show ((('1' : Char).toNat - 48) : ℕ) = 1 from rfl]

/-- Witness for C8 at the year 2024. -/
theorem c8_cross_format_agreement_witness :
    (('2' : Char).isDigit = true ∧ ('0' : Char).isDigit = true ∧
      ('4' : Char).isDigit = true) ∧
    monthIndex (String.mk ['J', 'a', 'n', ' ', '2', '0', '2', '4']) =
      some ((natOfDigits ['2', '0', '2', '4'] : ℤ) * 12) :=
  ⟨⟨rfl, rfl, rfl⟩,
   (c8_cross_format_agreement.2 '2' '0' '2' '4' rfl rfl rfl rfl).1⟩

/-- C3 counterexample: the claim says normalizeNumber of the string abc
is NaN, but the code strips every letter, leaving the empty string,
whose JavaScript Number conversion is 0, not NaN. -/
theorem c3_counterexample :
    toNumber (.str "abc") = some 0 ∧ ¬ toNumber (.str "abc") = none := by decide

/-- C3 (amended): toNumber returns a numeric input unchanged and cleans
textual input to digits, periods and minus signs before parsing; a
string whose cleaned form is non-empty but unparseable yields NaN, but a
string cleaning to the empty string yields 0, so toNumber of abc is 0,
while the RM 1,234.50 example parses to 1234.5; non-numeric non-string
inputs yield NaN. -/
theorem c3_normalize_number :
    (∀ q : ℚ, toNumber (.num q) = some q) ∧
    toNumber (.str "RM 1,234.50") = some (1234.5 : ℚ) ∧
    toNumber (.str "abc") = some 0 ∧
    toNumber (.str "a-b") = none ∧
    toNumber (.str "12.34.56") = none ∧
    (∀ b : Bool, toNumber (.boolV b) = none) ∧
    toNumber .nullV = none ∧ toNumber .undefV = none := by
  refine ⟨fun q => rfl, ?_, ?_, ?_, ?_, fun b => rfl, rfl, rfl⟩
  · have h : toNumber (.str "RM 1,234.50") =
        some ((natOfDigits ['1', '2', '3', '4'] : ℚ) + (natOfDigits ['5', '0'] : ℚ) / 10 ^ 2) :=
      rfl
    have h2 : natOfDigits ['1', '2', '3', '4'] = 1234 := rfl
    have h3 : natOfDigits ['5', '0'] = 50 := rfl
    rw [h, h2, h3]
    norm_num
  · rfl
  · rfl
  · rfl

/-- C1 counterexample: for a result set whose single record has the
numeric columns quantity then revenue, the code selects quantity (the
first matching column in column order), not revenue (the keyword of
higher priority in the list), refuting the keyword-priority reading. -/
theorem c1_counterexample :
    (resolveAxes [[("quantity", .num 1), ("revenue", .num 2)]]).yKey = some "quantity" ∧
    ¬ (resolveAxes [[("quantity", .num 1), ("revenue", .num 2)]]).yKey = some "revenue" := by
  decide

/-- The metric selection rule as the amended claim words it: the first
column in original column order that matches some metric keyword and is
numeric; else the first numeric column in original order; else null. -/
def metricSpecAmended (cols : List String) (isNum : String → Bool) : Option String :=
  match cols.filter (fun c => nameMatches metricPref c && isNum c) with
  | c :: _ => some c
  | [] => (cols.filter isNum).head?

/-- C1 (amended): metric selection scans the columns in original column
order and chooses the first numeric column matching any metric keyword,
with no priority among the keywords themselves; only when no column
matches does the first numeric column win, and the metric is null when
there is no numeric column. Stated for result sets whose column names
are non-empty, since an empty-string column name is falsy in the
JavaScript or-chains. -/
theorem c1_metric_column_order (rows : List Record)
    (hne : rows ≠ [])
    (hcols : ∀ c ∈ colsOf (sampleOf rows), c ≠ "") :
    (resolveAxes rows).yKey =
      metricSpecAmended (colsOf (sampleOf rows)) (isNumCol (sampleOf rows)) ∧
    ((∀ c ∈ colsOf (sampleOf rows), isNumCol (sampleOf rows) c = false) →
      (resolveAxes rows).yKey = none) := by
  obtain ⟨r, t, rfl⟩ : ∃ r t, rows = r :: t := by
    cases rows with
    | nil => exact absurd rfl hne
    | cons r t => exact ⟨r, t, rfl⟩
  have hy : (resolveAxes (r :: t)).yKey = preY (r :: t) := rfl
  have main : preY (r :: t) =
      metricSpecAmended (colsOf (sampleOf (r :: t))) (isNumCol (sampleOf (r :: t))) := by
    unfold preY metricColOf metricSpecAmended
    rw [find_eq_head_filter]
    cases hf : (colsOf (sampleOf (r :: t))).filter
        (fun c => nameMatches metricPref c && isNumCol (sampleOf (r :: t)) c) with
    | cons c cs =>
        have hc : c ∈ colsOf (sampleOf (r :: t)) := by
          have : c ∈ (colsOf (sampleOf (r :: t))).filter
              (fun c => nameMatches metricPref c && isNumCol (sampleOf (r :: t)) c) := by
            simp [hf]
          exact List.mem_of_mem_filter this
        have : isTruthy (some c) = true := by
          simp [isTruthy, hcols c hc]
        simp [hf, this]
    | nil =>
        have h0 : isTruthy (none : Option String) = true → False := by simp [isTruthy]
        simp only [hf, List.head?_nil]
        rw [if_neg (by simp [isTruthy])]
        unfold orJS numColsOf
        cases hg : (colsOf (sampleOf (r :: t))).filter
            (fun c => isNumCol (sampleOf (r :: t)) c) with
        | nil => simp [hg]
        | cons c cs =>
            have hc : c ∈ colsOf (sampleOf (r :: t)) := by
              have : c ∈ (colsOf (sampleOf (r :: t))).filter
                  (fun c => isNumCol (sampleOf (r :: t)) c) := by simp [hg]
              exact List.mem_of_mem_filter this
            have ht : isTruthy (some c) = true := by simp [isTruthy, hcols c hc]
            simp [hg, ht]
  refine ⟨hy.trans main, fun hall => ?_⟩
  rw [hy, main]
  unfold metricSpecAmended
  have h1 : (colsOf (sampleOf (r :: t))).filter
      (fun c => nameMatches metricPref c && isNumCol (sampleOf (r :: t)) c) = [] := by
    rw [List.filter_eq_nil_iff]
    intro c hc
    simp [hall c hc]
  have h2 : (colsOf (sampleOf (r :: t))).filter
      (fun c => isNumCol (sampleOf (r :: t)) c) = [] := by
    rw [List.filter_eq_nil_iff]
    intro c hc
    simp [hall c hc]
  simp [h1, h2]

/-- Witness for C1 (amended) at the quantity-revenue record. -/
theorem c1_metric_column_order_witness :
    ([[("quantity", Value.num 1), ("revenue", Value.num 2)]] : List Record) ≠ [] ∧
    (resolveAxes [[("quantity", Value.num 1), ("revenue", Value.num 2)]]).yKey =
      metricSpecAmended (colsOf (sampleOf [[("quantity", Value.num 1), ("revenue", Value.num 2)]]))
        (isNumCol (sampleOf [[("quantity", Value.num 1), ("revenue", Value.num 2)]])) :=
  ⟨by decide,
   (c1_metric_column_order [[("quantity", Value.num 1), ("revenue", Value.num 2)]]
     (by decide) (by decide)).1⟩

/-- C6: on the record with category Shoes, region West and revenue 100,
resolve returns region as x-axis and category as series; and in general,
whenever the pre-swap x-axis is not time-like, its name does not match
the geography keywords, and the series name does, the two roles are
swapped. -/
theorem c6_disambiguation_swap :
    resolveAxes [[("category", Value.str "Shoes"), ("region", Value.str "West"),
        ("revenue", Value.num 100)]] =
      ⟨some "region", some "category", some "revenue", true⟩ ∧
    (∀ rows : List Record, rows ≠ [] →
      isTimeLikeAxis (preX rows) (xSamplesOf rows (preX rows)) = false →
      nameMatches geoPrefs ((preX rows).getD "") = false →
      nameMatches geoPrefs ((preSeries rows).getD "") = true →
      (resolveAxes rows).xKey = preSeries rows ∧
        (resolveAxes rows).seriesKey = preX rows) := by
  constructor
  · decide
  · intro rows hne h1 h2 h3
    obtain ⟨r, t, rfl⟩ : ∃ r t, rows = r :: t := by
      cases rows with
      | nil => exact absurd rfl hne
      | cons r t => exact ⟨r, t, rfl⟩
    have hsw : swapCond (r :: t) (preX (r :: t)) (preSeries (r :: t)) = true := by
      simp [swapCond, h1, h2, h3]
    rw [resolveAxes_cons]
    constructor
    · show postX (r :: t) = preSeries (r :: t)
      simp [postX, hsw]
    · show postS (r :: t) = preX (r :: t)
      simp [postS, hsw]

/-- Witness for the general part of C6: a record set whose pre-swap
x-axis is the non-time non-geography column datetime and whose series is
the geography column region, which the resolver swaps. -/
theorem c6_disambiguation_swap_witness :
    (([[("datetime", Value.str "A-1-1"), ("region", Value.str "B-1-1"),
        ("sales", Value.num 5)]] : List Record) ≠ [] ∧
      isTimeLikeAxis (preX [[("datetime", Value.str "A-1-1"), ("region", Value.str "B-1-1"),
        ("sales", Value.num 5)]])
        (xSamplesOf [[("datetime", Value.str "A-1-1"), ("region", Value.str "B-1-1"),
          ("sales", Value.num 5)]]
          (preX [[("datetime", Value.str "A-1-1"), ("region", Value.str "B-1-1"),
            ("sales", Value.num 5)]])) = false) ∧
    (resolveAxes [[("datetime", Value.str "A-1-1"), ("region", Value.str "B-1-1"),
        ("sales", Value.num 5)]]).xKey =
      preSeries [[("datetime", Value.str "A-1-1"), ("region", Value.str "B-1-1"),
        ("sales", Value.num 5)]] ∧
    (resolveAxes [[("datetime", Value.str "A-1-1"), ("region", Value.str "B-1-1"),
        ("sales", Value.num 5)]]).seriesKey =
      preX [[("datetime", Value.str "A-1-1"), ("region", Value.str "B-1-1"),
        ("sales", Value.num 5)]] :=
  ⟨⟨by decide, by decide⟩,
   c6_disambiguation_swap.2
     [[("datetime", Value.str "A-1-1"), ("region", Value.str "B-1-1"),
       ("sales", Value.num 5)]]
     (by decide) (by decide) (by decide) (by decide)⟩

theorem timeColOf_mem {sample : Record} {k : String} (h : timeColOf sample = some k) :
    k ∈ colsOf sample := List.mem_of_find?_eq_some h

theorem geoColOf_mem {sample : Record} {k : String} (h : geoColOf sample = some k) :
    k ∈ colsOf sample := List.mem_of_find?_eq_some h

theorem productColOf_mem {sample : Record} {k : String} (h : productColOf sample = some k) :
    k ∈ colsOf sample := List.mem_of_find?_eq_some h

theorem metricColOf_mem {sample : Record} {k : String} (h : metricColOf sample = some k) :
    k ∈ colsOf sample := List.mem_of_find?_eq_some h

theorem preX_mem {rows : List Record} {k : String} (h : preX rows = some k) :
    k ∈ colsOf (sampleOf rows) := by
  unfold preX at h
  split at h
  · exact timeColOf_mem h
  · rcases orJS_eq_some h with h' | h'
    · exact geoColOf_mem h'
    · rcases orJS_eq_some h' with h'' | h''
      · exact List.mem_of_mem_filter (List.mem_of_find?_eq_some h'')
      · rcases orJS_eq_some h'' with h3 | h3
        · exact List.mem_of_mem_filter (headOpt_mem h3)
        · simp at h3

theorem preSeries_mem {rows : List Record} {k : String} (h : preSeries rows = some k) :
    k ∈ colsOf (sampleOf rows) := by
  unfold preSeries at h
  split at h
  · exact productColOf_mem h
  · split at h
    · exact geoColOf_mem h
    · rcases orJS_eq_some h with h' | h'
      · exact List.mem_of_mem_filter (List.mem_of_find?_eq_some h')
      · simp at h'

theorem preSeries_ne {rows : List Record} {a b : String}
    (hx : preX rows = some a) (hs : preSeries rows = some b) : b ≠ a := by
  unfold preSeries at hs
  split at hs
  · next hcond =>
      intro hab
      apply hcond.2.2
      rw [hs, hx, hab]
  · split at hs
    · next hcond =>
        intro hab
        apply hcond.2.2
        rw [hs, hx, hab]
    · rcases orJS_eq_some hs with h' | h'
      · have := List.find?_some h'
        simp only [decide_eq_true_eq] at this
        intro hab
        exact this (by rw [hx, hab])
      · simp at h'

theorem preY_mem {rows : List Record} {k : String} (h : preY rows = some k) :
    k ∈ colsOf (sampleOf rows) := by
  unfold preY at h
  split at h
  · exact metricColOf_mem h
  · rcases orJS_eq_some h with h' | h'
    · exact List.mem_of_mem_filter (headOpt_mem h')
    · simp at h'

/-- C10: for a non-empty result set, each returned role key is a column
of the first record, and a non-null x-axis and a non-null series are
always distinct columns, before and after the disambiguation swap. -/
theorem c10_role_invariant (rows : List Record) (hne : rows ≠ []) :
    (∀ k, (resolveAxes rows).xKey = some k → k ∈ colsOf (sampleOf rows)) ∧
    (∀ k, (resolveAxes rows).seriesKey = some k → k ∈ colsOf (sampleOf rows)) ∧
    (∀ k, (resolveAxes rows).yKey = some k → k ∈ colsOf (sampleOf rows)) ∧
    (∀ a b, (resolveAxes rows).xKey = some a → (resolveAxes rows).seriesKey = some b →
      a ≠ b) := by
  obtain ⟨r, t, rfl⟩ : ∃ r t, rows = r :: t := by
    cases rows with
    | nil => exact absurd rfl hne
    | cons r t => exact ⟨r, t, rfl⟩
  rw [resolveAxes_cons]
  by_cases hsw : swapCond (r :: t) (preX (r :: t)) (preSeries (r :: t)) = true
  · simp only [postX, postS, hsw, if_true]
    refine ⟨fun k h => preSeries_mem h, fun k h => preX_mem h, fun k h => preY_mem h, ?_⟩
    intro a b hx hs
    exact preSeries_ne hs hx
  · simp only [postX, postS, hsw, if_false]
    refine ⟨fun k h => preX_mem h, fun k h => preSeries_mem h, fun k h => preY_mem h, ?_⟩
    intro a b hx hs
    exact (preSeries_ne hx hs).symm

/-- Witness for C10 at the category-region-revenue record. -/
theorem c10_role_invariant_witness :
    ([[("category", Value.str "Shoes"), ("region", Value.str "West"),
        ("revenue", Value.num 100)]] : List Record) ≠ [] ∧
    (∀ k, (resolveAxes [[("category", Value.str "Shoes"), ("region", Value.str "West"),
        ("revenue", Value.num 100)]]).xKey = some k →
      k ∈ colsOf (sampleOf [[("category", Value.str "Shoes"), ("region", Value.str "West"),
        ("revenue", Value.num 100)]])) :=
  ⟨by decide,
   (c10_role_invariant [[("category", Value.str "Shoes"), ("region", Value.str "West"),
     ("revenue", Value.num 100)]] (by decide)).1⟩

/-- C9: the digit shapes of monthIndex perform no month-range check:
for any four digit characters of the year and any two digit characters
of the month, both the year-dash-month and the month-slash-year shapes
return the finite value year times 12 plus month minus one, even for
months 00 or 13..99; in particular 2024-13 equals Jan 2025 and 2024-00
equals Dec 2023. -/
theorem c9_no_month_range_validation :
    (∀ d1 d2 d3 d4 e1 e2 : Char,
      d1.isDigit = true → d2.isDigit = true → d3.isDigit = true → d4.isDigit = true →
      e1.isDigit = true → e2.isDigit = true →
      monthIndex (String.mk [d1, d2, d3, d4, '-', e1, e2]) =
        some (((1000 * digitVal d1 + 100 * digitVal d2 + 10 * digitVal d3 + digitVal d4 : ℕ) : ℤ)
          * 12 + ((10 * digitVal e1 + digitVal e2 : ℕ) : ℤ) - 1) ∧
      monthIndex (String.mk [e1, e2, '/', d1, d2, d3, d4]) =
        some (((1000 * digitVal d1 + 100 * digitVal d2 + 10 * digitVal d3 + digitVal d4 : ℕ) : ℤ)
          * 12 + ((10 * digitVal e1 + digitVal e2 : ℕ) : ℤ) - 1)) ∧
    monthIndex "2024-13" = monthIndex "Jan 2025" ∧
    monthIndex "2024-00" = monthIndex "Dec 2023" := by
  refine ⟨?_, by decide, by decide⟩
  intro d1 d2 d3 d4 e1 e2 h1 h2 h3 h4 h5 h6
  have hv4 : natOfDigits [d1, d2, d3, d4] =
      1000 * digitVal d1 + 100 * digitVal d2 + 10 * digitVal d3 + digitVal d4 := by
    simp [natOfDigits, List.foldl]
    ring
  have hv2 : natOfDigits [e1, e2] = 10 * digitVal e1 + digitVal e2 := by
    simp [natOfDigits, List.foldl]
    ring
  constructor
  · have htrim : trimChars [d1, d2, d3, d4, '-', e1, e2] = [d1, d2, d3, d4, '-', e1, e2] := by
      apply trimChars_eq_self (headOpt_cons_digit_not_space h1)
      intro c hc
      have : ([d1, d2, d3, d4, '-', e1, e2] : List Char).getLast? = some e2 := rfl
      rw [this] at hc
      injection hc with hc
      subst hc
      exact digit_not_space h6
    have hdash : dashShape [d1, d2, d3, d4, '-', e1, e2] =
        some ((natOfDigits [d1, d2, d3, d4] : ℤ) * 12 + (natOfDigits [e1, e2] : ℤ) - 1) := by
      simp only [dashShape]
      rw [if_pos ⟨h1, h2, h3, h4, trivial, h5, h6⟩]
    show monthIndexL (trimChars (String.mk [d1, d2, d3, d4, '-', e1, e2]).toList) = _
    rw [show (String.mk [d1, d2, d3, d4, '-', e1, e2]).toList = [d1, d2, d3, d4, '-', e1, e2]
      from rfl, htrim]
    unfold monthIndexL
    rw [monShape_none_of_digit_head h1, fullShape_none_of_digit_head h1, hdash, hv4, hv2]
  · have htrim : trimChars [e1, e2, '/', d1, d2, d3, d4] = [e1, e2, '/', d1, d2, d3, d4] := by
      apply trimChars_eq_self (headOpt_cons_digit_not_space h5)
      intro c hc
      have : ([e1, e2, '/', d1, d2, d3, d4] : List Char).getLast? = some d4 := rfl
      rw [this] at hc
      injection hc with hc
      subst hc
      exact digit_not_space h4
    have hdash : dashShape [e1, e2, '/', d1, d2, d3, d4] = none := by
      simp only [dashShape]
      rw [if_neg]
      intro hcond
      have := hcond.2.2.1
      simp at this
    have hslash : slashShape [e1, e2, '/', d1, d2, d3, d4] =
        some ((natOfDigits [d1, d2, d3, d4] : ℤ) * 12 + (natOfDigits [e1, e2] : ℤ) - 1) := by
      simp only [slashShape]
      rw [if_pos ⟨h5, h6, trivial, h1, h2, h3, h4⟩]
    show monthIndexL (trimChars (String.mk [e1, e2, '/', d1, d2, d3, d4]).toList) = _
    rw [show (String.mk [e1, e2, '/', d1, d2, d3, d4]).toList = [e1, e2, '/', d1, d2, d3, d4]
      from rfl, htrim]
    unfold monthIndexL
    rw [monShape_none_of_digit_head h5, fullShape_none_of_digit_head h5, hdash, hslash,
      hv4, hv2]

/-- Witness for C9 at the year 2024 and the out-of-range month 13. -/
theorem c9_no_month_range_validation_witness :
    (('2' : Char).isDigit = true ∧ ('0' : Char).isDigit = true ∧
      ('4' : Char).isDigit = true ∧ ('1' : Char).isDigit = true ∧
      ('3' : Char).isDigit = true) ∧
    monthIndex (String.mk ['2', '0', '2', '4', '-', '1', '3']) =
      some (((1000 * digitVal '2' + 100 * digitVal '0' + 10 * digitVal '2' + digitVal '4' : ℕ) : ℤ)
        * 12 + ((10 * digitVal '1' + digitVal '3' : ℕ) : ℤ) - 1) :=
  ⟨⟨rfl, rfl, rfl, rfl, rfl⟩,
   (c9_no_month_range_validation.1 '2' '0' '2' '4' '1' '3'
     rfl rfl rfl rfl rfl rfl).1⟩

theorem natOfDigits_four {a b c d : Char} :
    natOfDigits [a, b, c, d] =
      1000 * digitVal a + 100 * digitVal b + 10 * digitVal c + digitVal d := by
  simp [natOfDigits, List.foldl]
  ring

theorem monthsIdx_getD_le_eleven (w : String) : (monthsIdx w).getD 0 ≤ 11 := by
  cases hm : monthsIdx w with
  | none => simp
  | some i =>
      have := findIdxOpt_lt_length hm
      simp only [Option.getD_some]
      have hlen : MONTHS3.length = 12 := rfl
      omega

/-- C4 counterexample: Xyz 2024 is not one of the five supported shapes
in the claim reading (Xyz is no month abbreviation), yet monthIndex
returns the finite value 2024 * 12 = 24288 instead of the sentinel,
because a failed abbreviation lookup falls back to month offset 0. -/
theorem c4_counterexample :
    monthIndex "Xyz 2024" = some 24288 ∧ ¬ monthIndex "Xyz 2024" = none := by decide

/-- C4 (amended): monthIndex is total and returns the sentinel for
strings matching none of the five regular-expression shapes, such as Q1;
but the letter shapes validate nothing beyond being alphabetic: every
string of one or more letters, whitespace, and four digits yields a
finite index between year times 12 and year times 12 plus 11, an
unknown month word falling back to offset 0, so Xyz 2024 maps to
2024 * 12. -/
theorem c4_month_index_sentinel (w : List Char) (d1 d2 d3 d4 : Char)
    (hw : w ≠ []) (ha : ∀ c ∈ w, c.isAlpha = true)
    (h1 : d1.isDigit = true) (h2 : d2.isDigit = true)
    (h3 : d3.isDigit = true) (h4 : d4.isDigit = true) :
    monthIndex "Q1" = none ∧
    monthIndex "Xyz 2024" = some (2024 * 12) ∧
    ∃ k : ℤ, monthIndex (String.mk (w ++ ' ' :: [d1, d2, d3, d4])) = some k ∧
      ((1000 * digitVal d1 + 100 * digitVal d2 + 10 * digitVal d3 + digitVal d4 : ℕ) : ℤ) * 12
        ≤ k ∧
      k ≤ ((1000 * digitVal d1 + 100 * digitVal d2 + 10 * digitVal d3 + digitVal d4 : ℕ) : ℤ)
        * 12 + 11 := by
  refine ⟨by decide, by decide, ?_⟩
  obtain ⟨c0, wt, rfl⟩ : ∃ c0 wt, w = c0 :: wt := by
    cases w with
    | nil => exact absurd rfl hw
    | cons c0 wt => exact ⟨c0, wt, rfl⟩
  have hc0 : c0.isAlpha = true := ha c0 (List.mem_cons_self c0 wt)
  have hspan := takeWhile_append_all Char.isAlpha (c0 :: wt)
    (' ' :: [d1, d2, d3, d4]) ha
    (fun c hc => by
      simp only [List.head?_cons, Option.some.injEq] at hc
      subst hc
      decide)
  have htake := hspan.1
  have hdrop := hspan.2
  have hsp1 : ((' ' :: [d1, d2, d3, d4] : List Char)).takeWhile isJsSpace = [' '] := by
    rw [List.takeWhile_cons, if_pos (by decide : isJsSpace ' ' = true),
      takeWhile_nil_of_head (headOpt_cons_digit_not_space h1)]
  have hsp2 : ((' ' :: [d1, d2, d3, d4] : List Char)).dropWhile isJsSpace = [d1, d2, d3, d4] := by
    rw [List.dropWhile_cons, if_pos (by decide : isJsSpace ' ' = true)]
    exact dropWhile_self_of_head (headOpt_cons_digit_not_space h1)
  have htrim : trimChars ((c0 :: wt) ++ ' ' :: [d1, d2, d3, d4]) =
      (c0 :: wt) ++ ' ' :: [d1, d2, d3, d4] := by
    apply trimChars_eq_self
    · intro c hc
      rw [List.head?_append_of_ne_nil (c0 :: wt) (List.cons_ne_nil c0 wt)] at hc
      simp only [List.head?_cons, Option.some.injEq] at hc
      subst hc
      exact alpha_not_space hc0
    · intro c hc
      rw [List.getLast?_append] at hc
      have hlast : ((' ' :: [d1, d2, d3, d4] : List Char)).getLast? = some d4 := rfl
      rw [hlast] at hc
      have : some d4 = some c := by
        rw [← hc]
        rfl
      injection this with this
      subst this
      exact digit_not_space h4
  have hds : natOfDigits [d1, d2, d3, d4] =
      1000 * digitVal d1 + 100 * digitVal d2 + 10 * digitVal d3 + digitVal d4 :=
    natOfDigits_four
  show ∃ k : ℤ, monthIndexL (trimChars (String.mk
    ((c0 :: wt) ++ ' ' :: [d1, d2, d3, d4])).toList) = some k ∧ _ ∧ _
  rw [show (String.mk ((c0 :: wt) ++ ' ' :: [d1, d2, d3, d4])).toList =
    (c0 :: wt) ++ ' ' :: [d1, d2, d3, d4] from rfl, htrim]
  by_cases hlen : ((c0 :: wt) : List Char).length = 3
  · have hmon : monShape ((c0 :: wt) ++ ' ' :: [d1, d2, d3, d4]) =
        some ((natOfDigits [d1, d2, d3, d4] : ℤ) * 12 +
          ((monthsIdx (String.mk (c0 :: wt))).getD 0 : ℕ)) := by
      unfold monShape
      rw [htake, hdrop, hsp1, hsp2]
      rw [if_pos ⟨hlen, by simp, rfl, by simp [h1, h2, h3, h4]⟩]
    refine ⟨(natOfDigits [d1, d2, d3, d4] : ℤ) * 12 +
      ((monthsIdx (String.mk (c0 :: wt))).getD 0 : ℕ), ?_, ?_, ?_⟩
    · unfold monthIndexL
      rw [hmon]
    · rw [hds]
      omega
    · rw [hds]
      have := monthsIdx_getD_le_eleven (String.mk (c0 :: wt))
      omega
  · have hmon : monShape ((c0 :: wt) ++ ' ' :: [d1, d2, d3, d4]) = none := by
      unfold monShape
      rw [htake, hdrop, hsp1, hsp2, if_neg]
      intro hcond
      exact hlen hcond.1
    have hfull : fullShape ((c0 :: wt) ++ ' ' :: [d1, d2, d3, d4]) =
        some ((natOfDigits [d1, d2, d3, d4] : ℤ) * 12 +
          ((monthsIdx (match fullTo3 (String.mk (c0 :: wt)) with
            | some a => a
            | none => String.mk (((c0 :: wt) : List Char).take 3))).getD 0 : ℕ)) := by
      unfold fullShape
      rw [htake, hdrop, hsp1, hsp2]
      rw [if_pos ⟨by simp, by simp, rfl, by simp [h1, h2, h3, h4]⟩]
    refine ⟨(natOfDigits [d1, d2, d3, d4] : ℤ) * 12 +
      ((monthsIdx (match fullTo3 (String.mk (c0 :: wt)) with
        | some a => a
        | none => String.mk (((c0 :: wt) : List Char).take 3))).getD 0 : ℕ), ?_, ?_, ?_⟩
    · unfold monthIndexL
      rw [hmon, hfull]
    · rw [hds]
      omega
    · rw [hds]
      have := monthsIdx_getD_le_eleven (match fullTo3 (String.mk (c0 :: wt)) with
        | some a => a
        | none => String.mk (((c0 :: wt) : List Char).take 3))
      omega

/-- Witness for C4 (amended) at the word Xyz and the year 2024. -/
theorem c4_month_index_sentinel_witness :
    (("Xyz".toList ≠ []) ∧ (∀ c ∈ "Xyz".toList, c.isAlpha = true)) ∧
    monthIndex "Q1" = none ∧
    monthIndex "Xyz 2024" = some (2024 * 12) ∧
    ∃ k : ℤ, monthIndex (String.mk ("Xyz".toList ++ ' ' :: ['2', '0', '2', '4'])) = some k ∧
      ((1000 * digitVal '2' + 100 * digitVal '0' + 10 * digitVal '2' + digitVal '4' : ℕ) : ℤ)
        * 12 ≤ k ∧
      k ≤ ((1000 * digitVal '2' + 100 * digitVal '0' + 10 * digitVal '2' + digitVal '4' : ℕ) : ℤ)
        * 12 + 11 :=
  ⟨⟨by decide, by decide⟩,
   c4_month_index_sentinel "Xyz".toList '2' '0' '2' '4'
     (by decide) (by decide) (by decide) (by decide) (by decide) (by decide)⟩

/-! Helper lemmas for the pivot state. -/

/-- Keys of the x-value map, in insertion order. -/
def keysW (m : List (Value × WideRow)) : List Value := m.map Prod.fst

theorem lookupField_setField_same (w : WideRow) (k : String) (v : Value) :
    lookupField (setField w k v) k = some v := by
  induction w with
  | nil => simp [setField, lookupField]
  | cons p t ih =>
      obtain ⟨k0, v0⟩ := p
      unfold setField
      by_cases h : k0 = k
      · subst h
        simp [lookupField, List.find?_cons]
      · simp only [if_neg h]
        simp only [lookupField, List.find?_cons, decide_eq_false h] at ih ⊢
        exact ih

theorem lookupField_setField_ne (w : WideRow) (k : String) (v : Value) (k' : String)
    (h : k' ≠ k) : lookupField (setField w k v) k' = lookupField w k' := by
  induction w with
  | nil => simp [setField, lookupField, List.find?_cons, Ne.symm h]
  | cons p t ih =>
      obtain ⟨k0, v0⟩ := p
      unfold setField
      by_cases h0 : k0 = k
      · subst h0
        simp [lookupField, List.find?_cons, Ne.symm h]
      · simp only [if_neg h0]
        by_cases h1 : k0 = k'
        · subst h1
          simp [lookupField, List.find?_cons]
        · simp only [lookupField, List.find?_cons, decide_eq_false h1] at ih ⊢
          exact ih

theorem mem_setField_cases {w : WideRow} {k : String} {v : Value} {f : String} {u : Value}
    (h : (f, u) ∈ setField w k v) : (f, u) = (k, v) ∨ (f, u) ∈ w := by
  induction w with
  | nil => simpa [setField] using h
  | cons p t ih =>
      obtain ⟨k0, v0⟩ := p
      unfold setField at h
      by_cases h0 : k0 = k
      · rw [if_pos h0] at h
        rcases List.mem_cons.mp h with h1 | h1
        · subst h0
          exact Or.inl (by simpa using h1)
        · exact Or.inr (List.mem_cons_of_mem _ h1)
      · rw [if_neg h0] at h
        rcases List.mem_cons.mp h with h1 | h1
        · exact Or.inr (by simp [h1])
        · rcases ih h1 with h2 | h2
          · exact Or.inl h2
          · exact Or.inr (List.mem_cons_of_mem _ h2)

theorem keysW_mapUpdateW (m : List (Value × WideRow)) (x : Value) (f : WideRow → WideRow) :
    keysW (mapUpdateW m x f) = keysW m := by
  induction m with
  | nil => rfl
  | cons p t ih =>
      obtain ⟨x0, w0⟩ := p
      unfold mapUpdateW
      by_cases h : x0 = x
      · simp [keysW, h]
      · simp only [if_neg h]
        simpa [keysW] using ih

theorem mapGetW_mapUpdateW_same (m : List (Value × WideRow)) (x : Value)
    (f : WideRow → WideRow) : mapGetW (mapUpdateW m x f) x = (mapGetW m x).map f := by
  induction m with
  | nil => rfl
  | cons p t ih =>
      obtain ⟨x0, w0⟩ := p
      unfold mapUpdateW
      by_cases h : x0 = x
      · subst h
        simp [mapGetW, List.find?_cons]
      · simp only [if_neg h]
        simp only [mapGetW, List.find?_cons, decide_eq_false h] at ih ⊢
        exact ih

theorem mem_mapUpdateW_cases {m : List (Value × WideRow)} {x : Value} {f : WideRow → WideRow}
    {y : Value} {w : WideRow} (h : (y, w) ∈ mapUpdateW m x f) :
    (y, w) ∈ m ∨ (y = x ∧ ∃ w0, (y, w0) ∈ m ∧ w = f w0) := by
  induction m with
  | nil => simp [mapUpdateW] at h
  | cons p t ih =>
      obtain ⟨x0, w0⟩ := p
      unfold mapUpdateW at h
      by_cases h0 : x0 = x
      · rw [if_pos h0] at h
        rcases List.mem_cons.mp h with h1 | h1
        · rw [Prod.mk.injEq] at h1
          refine Or.inr ⟨h1.1.trans h0, w0, ?_, h1.2⟩
          rw [h1.1]
          exact List.mem_cons_self _ _
        · exact Or.inl (List.mem_cons_of_mem _ h1)
      · rw [if_neg h0] at h
        rcases List.mem_cons.mp h with h1 | h1
        · exact Or.inl (by simp [h1])
        · rcases ih h1 with h2 | h2
          · exact Or.inl (List.mem_cons_of_mem _ h2)
          · obtain ⟨hy, w1, hmem, hw⟩ := h2
            exact Or.inr ⟨hy, w1, List.mem_cons_of_mem _ hmem, hw⟩

theorem mapGetW_eq_some_mem {m : List (Value × WideRow)} {x : Value} {w : WideRow}
    (h : mapGetW m x = some w) : (x, w) ∈ m := by
  induction m with
  | nil => simp [mapGetW] at h
  | cons p t ih =>
      obtain ⟨x0, w0⟩ := p
      by_cases h0 : x0 = x
      · subst h0
        simp [mapGetW, List.find?_cons] at h
        subst h
        exact List.mem_cons_self _ _
      · simp only [mapGetW, List.find?_cons, decide_eq_false h0] at h ih
        exact List.mem_cons_of_mem _ (ih h)

theorem mapGetW_isSome_iff {m : List (Value × WideRow)} {x : Value} :
    (mapGetW m x).isSome = true ↔ x ∈ keysW m := by
  induction m with
  | nil => simp [mapGetW, keysW]
  | cons p t ih =>
      obtain ⟨x0, w0⟩ := p
      by_cases h : x0 = x
      · subst h
        simp [mapGetW, keysW, List.find?_cons]
      · simp only [mapGetW, keysW, List.find?_cons, decide_eq_false h, List.map_cons,
          List.mem_cons] at ih ⊢
        simp only [ih]
        constructor
        · exact Or.inr
        · rintro (h1 | h1)
          · exact absurd h1.symm h
          · exact h1

theorem mapGetW_append {m : List (Value × WideRow)} {e : Value × WideRow} {y : Value} :
    mapGetW (m ++ [e]) y = if (mapGetW m y).isSome then mapGetW m y
      else mapGetW [e] y := by
  induction m with
  | nil => simp [mapGetW]
  | cons p t ih =>
      obtain ⟨x0, w0⟩ := p
      by_cases h : x0 = y
      · subst h
        simp [mapGetW, List.find?_cons]
      · simp only [mapGetW, List.cons_append, List.find?_cons, decide_eq_false h] at ih ⊢
        exact ih

theorem addSet_nodup {l : List Value} {x : Value} (h : l.Nodup) : (addSet l x).Nodup := by
  unfold addSet
  by_cases hx : x ∈ l
  · rwa [if_pos hx]
  · rw [if_neg hx]
    simpa [List.nodup_append] using ⟨h, hx⟩

theorem mem_addSet_iff {l : List Value} {x y : Value} :
    y ∈ addSet l x ↔ y ∈ l ∨ y = x := by
  unfold addSet
  by_cases hx : x ∈ l
  · rw [if_pos hx]
    constructor
    · exact Or.inl
    · rintro (h | rfl)
      · exact h
      · exact hx
  · rw [if_neg hx]
    simp

theorem addSet_eq_keys {l : List Value} {x : Value} (h : x ∈ l) : addSet l x = l := by
  unfold addSet
  rw [if_pos h]

theorem mem_insertSorted {a y : Value} {l : List Value} :
    y ∈ insertSorted a l ↔ y = a ∨ y ∈ l := by
  induction l with
  | nil => simp [insertSorted]
  | cons b t ih =>
      unfold insertSorted
      by_cases h : pivotCmp a b < 0
      · rw [if_pos h]
        simp
      · rw [if_neg h]
        simp only [List.mem_cons, ih]
        tauto

theorem mem_sortJS {y : Value} {l : List Value} : y ∈ sortJS l ↔ y ∈ l := by
  have main : ∀ (l acc : List Value),
      (y ∈ l.foldl (fun acc a => insertSorted a acc) acc ↔ y ∈ acc ∨ y ∈ l) := by
    intro l
    induction l with
    | nil => simp
    | cons a t ih =>
        intro acc
        simp only [List.foldl_cons, ih, mem_insertSorted, List.mem_cons]
        tauto
  simpa [sortJS] using main l []

theorem pivotStep_eq (xKey seriesKey yKey : String) (st : PivotState) (r : Record) :
    pivotStep xKey seriesKey yKey st r =
      ⟨addSet st.xs (getV r xKey), addSet st.series (getV r seriesKey),
        mapUpdateW
          (if (mapGetW st.map (getV r xKey)).isSome then st.map
            else st.map ++ [(getV r xKey, [(xKey, getV r xKey)])])
          (getV r xKey)
          (fun w => setField w (jsToString (getV r seriesKey))
            (.num ((toNumber (getV r yKey)).getD 0)))⟩ := rfl

theorem lookupField_singleton (k : String) (x : Value) :
    lookupField [(k, x)] k = some x := by
  simp [lookupField, List.find?_cons]

/-- Invariant of the pivot fold: the map keys equal the x set and are
distinct, every wide row stores its x value under the x key, and every
other field of a wide row originates from some input row with that x
value and that stringified series value, holding the normalized metric
with 0 substituted for NaN. -/
def pivotInv (xKey seriesKey yKey : String) (allRows : List Record) (st : PivotState) : Prop :=
  keysW st.map = st.xs ∧
  st.xs.Nodup ∧
  (∀ x w, (x, w) ∈ st.map → lookupField w xKey = some x) ∧
  (∀ x w, (x, w) ∈ st.map → ∀ f v, (f, v) ∈ w → f ≠ xKey →
    ∃ r ∈ allRows, getV r xKey = x ∧ jsToString (getV r seriesKey) = f ∧
      v = Value.num ((toNumber (getV r yKey)).getD 0))

theorem pivotStep_inv {xKey seriesKey yKey : String} {allRows : List Record}
    {st : PivotState} {r : Record}
    (hr : r ∈ allRows)
    (hxne : jsToString (getV r seriesKey) ≠ xKey)
    (hinv : pivotInv xKey seriesKey yKey allRows st) :
    pivotInv xKey seriesKey yKey allRows (pivotStep xKey seriesKey yKey st r) := by
  obtain ⟨hkeys, hnodup, hxfield, horigin⟩ := hinv
  rw [pivotStep_eq]
  set x := getV r xKey with hxdef
  set key := jsToString (getV r seriesKey) with hkeydef
  set val := Value.num ((toNumber (getV r yKey)).getD 0) with hvaldef
  set m1 := (if (mapGetW st.map x).isSome then st.map
    else st.map ++ [(x, [(xKey, x)])]) with hm1
  have hA1 : keysW m1 = addSet st.xs x := by
    rw [hm1]
    by_cases hx : (mapGetW st.map x).isSome = true
    · rw [if_pos hx, hkeys, addSet_eq_keys (hkeys ▸ mapGetW_isSome_iff.mp hx)]
    · rw [if_neg hx]
      have hnot : ¬ x ∈ st.xs := fun hmem =>
        hx (mapGetW_isSome_iff.mpr (hkeys ▸ hmem))
      unfold addSet keysW
      rw [if_neg hnot, List.map_append]
      unfold keysW at hkeys
      rw [hkeys]
      rfl
  have hA2 : ∀ y w, (y, w) ∈ m1 → (y, w) ∈ st.map ∨ (y = x ∧ w = [(xKey, x)]) := by
    intro y w hmem
    rw [hm1] at hmem
    by_cases hx : (mapGetW st.map x).isSome = true
    · rw [if_pos hx] at hmem
      exact Or.inl hmem
    · rw [if_neg hx] at hmem
      rcases List.mem_append.mp hmem with h1 | h1
      · exact Or.inl h1
      · right
        simp only [List.mem_singleton, Prod.mk.injEq] at h1
        exact h1
  have hA3 : ∀ y w, (y, w) ∈ m1 → lookupField w xKey = some y := by
    intro y w hmem
    rcases hA2 y w hmem with h1 | ⟨rfl, rfl⟩
    · exact hxfield y w h1
    · exact lookupField_singleton xKey x
  have hA4 : ∀ y w, (y, w) ∈ m1 → ∀ f v, (f, v) ∈ w → f ≠ xKey →
      ∃ r' ∈ allRows, getV r' xKey = y ∧ jsToString (getV r' seriesKey) = f ∧
        v = Value.num ((toNumber (getV r' yKey)).getD 0) := by
    intro y w hmem f v hf hfne
    rcases hA2 y w hmem with h1 | ⟨rfl, rfl⟩
    · exact horigin y w h1 f v hf hfne
    · simp only [List.mem_singleton, Prod.mk.injEq] at hf
      exact absurd hf.1 hfne
  refine ⟨?_, addSet_nodup hnodup, ?_, ?_⟩
  · show keysW (mapUpdateW m1 x _) = addSet st.xs x
    rw [keysW_mapUpdateW, hA1]
  · show ∀ y w, (y, w) ∈ mapUpdateW m1 x _ → lookupField w xKey = some y
    intro y w hmem
    rcases mem_mapUpdateW_cases hmem with h1 | ⟨rfl, w1, hmem1, rfl⟩
    · exact hA3 y w h1
    · rw [lookupField_setField_ne w1 key val xKey (Ne.symm hxne)]
      exact hA3 _ w1 hmem1
  · show ∀ y w, (y, w) ∈ mapUpdateW m1 x _ → ∀ f v, (f, v) ∈ w → f ≠ xKey → _
    intro y w hmem f v hf hfne
    rcases mem_mapUpdateW_cases hmem with h1 | ⟨rfl, w1, hmem1, rfl⟩
    · exact hA4 y w h1 f v hf hfne
    · rcases mem_setField_cases hf with h2 | h2
      · rw [Prod.mk.injEq] at h2
        exact ⟨r, hr, rfl, h2.1.symm, h2.2⟩
      · exact hA4 _ w1 hmem1 f v h2 hfne

theorem pivot_fold_inv {xKey seriesKey yKey : String} {allRows : List Record} :
    ∀ (todo : List Record) (st : PivotState),
      (∀ r ∈ todo, r ∈ allRows) →
      (∀ r ∈ todo, jsToString (getV r seriesKey) ≠ xKey) →
      pivotInv xKey seriesKey yKey allRows st →
      pivotInv xKey seriesKey yKey allRows
        (todo.foldl (pivotStep xKey seriesKey yKey) st) := by
  intro todo
  induction todo with
  | nil => exact fun st _ _ h => h
  | cons r t ih =>
      intro st hsub hxne hinv
      simp only [List.foldl_cons]
      exact ih _ (fun r' hr' => hsub r' (List.mem_cons_of_mem _ hr'))
        (fun r' hr' => hxne r' (List.mem_cons_of_mem _ hr'))
        (pivotStep_inv (hsub r (List.mem_cons_self _ _))
          (hxne r (List.mem_cons_self _ _)) hinv)

theorem pivot_series_nodup {xKey seriesKey yKey : String} :
    ∀ (todo : List Record) (st : PivotState), st.series.Nodup →
      ((todo.foldl (pivotStep xKey seriesKey yKey) st).series).Nodup := by
  intro todo
  induction todo with
  | nil => exact fun st h => h
  | cons r t ih =>
      intro st h
      simp only [List.foldl_cons]
      exact ih _ (addSet_nodup h)

theorem pivot_series_sound (P : Value → Prop) {xKey seriesKey yKey : String} :
    ∀ (todo : List Record) (st : PivotState),
      (∀ s ∈ st.series, P s) → (∀ r ∈ todo, P (getV r seriesKey)) →
      ∀ s ∈ (todo.foldl (pivotStep xKey seriesKey yKey) st).series, P s := by
  intro todo
  induction todo with
  | nil => exact fun st h _ => h
  | cons r t ih =>
      intro st hst htodo
      simp only [List.foldl_cons]
      refine ih _ ?_ (fun r' hr' => htodo r' (List.mem_cons_of_mem _ hr'))
      intro s hs
      rcases mem_addSet_iff.mp hs with h1 | rfl
      · exact hst s h1
      · exact htodo r (List.mem_cons_self _ _)

theorem pivot_series_mono {xKey seriesKey yKey : String} :
    ∀ (todo : List Record) (st : PivotState) (s : Value), s ∈ st.series →
      s ∈ (todo.foldl (pivotStep xKey seriesKey yKey) st).series := by
  intro todo
  induction todo with
  | nil => exact fun st s h => h
  | cons r t ih =>
      intro st s h
      simp only [List.foldl_cons]
      exact ih _ s (mem_addSet_iff.mpr (Or.inl h))

theorem pivot_series_complete {xKey seriesKey yKey : String} :
    ∀ (todo : List Record) (st : PivotState) (r : Record), r ∈ todo →
      getV r seriesKey ∈ (todo.foldl (pivotStep xKey seriesKey yKey) st).series := by
  intro todo
  induction todo with
  | nil => intro st r h; simp at h
  | cons r0 t ih =>
      intro st r h
      simp only [List.foldl_cons]
      rcases List.mem_cons.mp h with rfl | h1
      · exact pivot_series_mono t _ _ (mem_addSet_iff.mpr (Or.inr rfl))
      · exact ih _ r h1

theorem mem_keysW_of_mem {m : List (Value × WideRow)} {x : Value} {w : WideRow}
    (h : (x, w) ∈ m) : x ∈ keysW m := by
  induction m with
  | nil => simp at h
  | cons p t ih =>
      rcases List.mem_cons.mp h with rfl | h1
      · simp [keysW]
      · simp only [keysW, List.map_cons, List.mem_cons]
        exact Or.inr (ih h1)

theorem mapGetW_of_mem_nodup {m : List (Value × WideRow)} {x : Value} {w : WideRow}
    (hn : (keysW m).Nodup) (h : (x, w) ∈ m) : mapGetW m x = some w := by
  induction m with
  | nil => simp at h
  | cons p t ih =>
      obtain ⟨x0, w0⟩ := p
      have hn' := hn
      simp only [keysW, List.map_cons, List.nodup_cons] at hn'
      rcases List.mem_cons.mp h with h1 | h1
      · rw [Prod.mk.injEq] at h1
        obtain ⟨rfl, rfl⟩ := h1
        simp [mapGetW, List.find?_cons]
      · have hxne : ¬ x0 = x := by
          intro heq
          subst heq
          exact hn'.1 (mem_keysW_of_mem h1)
        simp only [mapGetW, List.find?_cons, decide_eq_false hxne]
        have := ih hn'.2
        simpa [mapGetW] using this h1

/-- C5: pivoting the reference rows on month, region and revenue yields
the two wide rows with South absent (not zero filled) in the February
row and the series list North, South; in general every non-x field of a
wide row originates from an observed row for that x value with the
normalized metric (0 substituted for a non-finite value), the series
list holds exactly the distinct series values observed, and for
duplicate pairs the last row written wins. Stated for result sets whose
stringified series values do not collide with the x key name. -/
theorem c5_pivot_reference (rows : List Record) (xKey seriesKey yKey : String)
    (hxne : ∀ r ∈ rows, jsToString (getV r seriesKey) ≠ xKey) :
    pivotData
        [[("region", Value.str "North"), ("month", Value.str "Jan 2024"),
          ("revenue", Value.num 10)],
         [("region", Value.str "South"), ("month", Value.str "Jan 2024"),
          ("revenue", Value.num 5)],
         [("region", Value.str "North"), ("month", Value.str "Feb 2024"),
          ("revenue", Value.num 7)]]
        "month" "region" "revenue" =
      ⟨[[("month", Value.str "Jan 2024"), ("North", Value.num 10), ("South", Value.num 5)],
        [("month", Value.str "Feb 2024"), ("North", Value.num 7)]],
       [Value.str "North", Value.str "South"]⟩ ∧
    (∀ w ∈ (pivotData rows xKey seriesKey yKey).data, ∀ f v, (f, v) ∈ w → f ≠ xKey →
      ∃ r ∈ rows, lookupField w xKey = some (getV r xKey) ∧
        jsToString (getV r seriesKey) = f ∧
        v = Value.num ((toNumber (getV r yKey)).getD 0)) ∧
    ((pivotData rows xKey seriesKey yKey).series.Nodup ∧
      ∀ s, s ∈ (pivotData rows xKey seriesKey yKey).series ↔
        ∃ r ∈ rows, getV r seriesKey = s) ∧
    (∀ (pre : List Record) (rlast : Record), rows = pre ++ [rlast] →
      ∀ w ∈ (pivotData rows xKey seriesKey yKey).data,
        lookupField w xKey = some (getV rlast xKey) →
        lookupField w (jsToString (getV rlast seriesKey)) =
          some (Value.num ((toNumber (getV rlast yKey)).getD 0))) := by
  have hinv : pivotInv xKey seriesKey yKey rows
      (rows.foldl (pivotStep xKey seriesKey yKey) ⟨[], [], []⟩) :=
    pivot_fold_inv rows _ (fun r h => h) hxne
      ⟨rfl, List.nodup_nil, by simp, by simp⟩
  obtain ⟨hkeys, hnodup, hxfield, horigin⟩ := hinv
  have hwmem : ∀ w ∈ (pivotData rows xKey seriesKey yKey).data,
      ∃ x, (x, w) ∈ (rows.foldl (pivotStep xKey seriesKey yKey) ⟨[], [], []⟩).map ∧
        lookupField w xKey = some x := by
    intro w hw
    obtain ⟨x, hx, hwx⟩ := List.mem_map.mp hw
    have hx2 : x ∈ (rows.foldl (pivotStep xKey seriesKey yKey) ⟨[], [], []⟩).xs :=
      mem_sortJS.mp hx
    have hx3 : (mapGetW (rows.foldl (pivotStep xKey seriesKey yKey) ⟨[], [], []⟩).map x).isSome :=
      mapGetW_isSome_iff.mpr (hkeys ▸ hx2)
    obtain ⟨w', hw'⟩ := Option.isSome_iff_exists.mp hx3
    have hww : w = w' := by rw [← hwx, hw']; rfl
    rw [hww]
    exact ⟨x, mapGetW_eq_some_mem hw', hxfield x w' (mapGetW_eq_some_mem hw')⟩
  refine ⟨by decide, ?_, ⟨?_, ?_⟩, ?_⟩
  · intro w hw f v hfv hfne
    obtain ⟨x, hxw, hxf⟩ := hwmem w hw
    obtain ⟨r, hr, hrx, hrf, hrv⟩ := horigin x w hxw f v hfv hfne
    exact ⟨r, hr, by rw [hxf, hrx], hrf, hrv⟩
  · exact pivot_series_nodup rows _ List.nodup_nil
  · intro s
    constructor
    · intro hs
      exact pivot_series_sound (fun s => ∃ r ∈ rows, getV r seriesKey = s)
        rows _ (by simp) (fun r hr => ⟨r, hr, rfl⟩) s hs
    · rintro ⟨r, hr, rfl⟩
      exact pivot_series_complete rows _ r hr
  · intro pre rlast hrows w hw hxw
    obtain ⟨x, hxwmem, hxf⟩ := hwmem w hw
    have hxeq : x = getV rlast xKey := by
      rw [hxf] at hxw
      injection hxw
    subst hxeq
    have hfold : rows.foldl (pivotStep xKey seriesKey yKey) ⟨[], [], []⟩ =
        pivotStep xKey seriesKey yKey
          (pre.foldl (pivotStep xKey seriesKey yKey) ⟨[], [], []⟩) rlast := by
      rw [hrows, List.foldl_append, List.foldl_cons, List.foldl_nil]
    obtain ⟨w1, hw1⟩ : ∃ w1,
        mapGetW (if (mapGetW (pre.foldl (pivotStep xKey seriesKey yKey)
            ⟨[], [], []⟩).map (getV rlast xKey)).isSome
          then (pre.foldl (pivotStep xKey seriesKey yKey) ⟨[], [], []⟩).map
          else (pre.foldl (pivotStep xKey seriesKey yKey) ⟨[], [], []⟩).map ++
            [(getV rlast xKey, [(xKey, getV rlast xKey)])]) (getV rlast xKey) = some w1 := by
      by_cases hpres : (mapGetW (pre.foldl (pivotStep xKey seriesKey yKey)
          ⟨[], [], []⟩).map (getV rlast xKey)).isSome = true
      · rw [if_pos hpres]
        exact Option.isSome_iff_exists.mp hpres
      · rw [if_neg hpres]
        refine ⟨[(xKey, getV rlast xKey)], ?_⟩
        rw [mapGetW_append, if_neg hpres]
        simp [mapGetW, List.find?_cons]
    have hget : mapGetW (rows.foldl (pivotStep xKey seriesKey yKey) ⟨[], [], []⟩).map
        (getV rlast xKey) =
        some (setField w1 (jsToString (getV rlast seriesKey))
          (Value.num ((toNumber (getV rlast yKey)).getD 0))) := by
      rw [hfold, pivotStep_eq]
      show mapGetW (mapUpdateW _ _ _) _ = _
      rw [mapGetW_mapUpdateW_same, hw1]
      rfl
    have hw_eq : w = setField w1 (jsToString (getV rlast seriesKey))
        (Value.num ((toNumber (getV rlast yKey)).getD 0)) := by
      have := mapGetW_of_mem_nodup (hkeys ▸ hnodup) hxwmem
      rw [this] at hget
      injection hget
    rw [hw_eq]
    exact lookupField_setField_same _ _ _

/-- Witness for C5 at the reference rows of the specification. -/
theorem c5_pivot_reference_witness :
    (∀ r ∈ ([[("region", Value.str "North"), ("month", Value.str "Jan 2024"),
          ("revenue", Value.num 10)],
         [("region", Value.str "South"), ("month", Value.str "Jan 2024"),
          ("revenue", Value.num 5)],
         [("region", Value.str "North"), ("month", Value.str "Feb 2024"),
          ("revenue", Value.num 7)]] : List Record),
      jsToString (getV r "region") ≠ "month") ∧
    pivotData
        [[("region", Value.str "North"), ("month", Value.str "Jan 2024"),
          ("revenue", Value.num 10)],
         [("region", Value.str "South"), ("month", Value.str "Jan 2024"),
          ("revenue", Value.num 5)],
         [("region", Value.str "North"), ("month", Value.str "Feb 2024"),
          ("revenue", Value.num 7)]]
        "month" "region" "revenue" =
      ⟨[[("month", Value.str "Jan 2024"), ("North", Value.num 10), ("South", Value.num 5)],
        [("month", Value.str "Feb 2024"), ("North", Value.num 7)]],
       [Value.str "North", Value.str "South"]⟩ :=
  ⟨by decide,
   (c5_pivot_reference
     [[("region", Value.str "North"), ("month", Value.str "Jan 2024"),
       ("revenue", Value.num 10)],
      [("region", Value.str "South"), ("month", Value.str "Jan 2024"),
       ("revenue", Value.num 5)],
      [("region", Value.str "North"), ("month", Value.str "Feb 2024"),
       ("revenue", Value.num 7)]]
     "month" "region" "revenue" (by decide)).1⟩

/-! Ordering lemmas for the pivot sort. -/

/-- Sort key realizing the locale comparison model: the case-folded
character list first, the raw list as tie break. -/
def lcKey (s : String) : Lex (List Char × List Char) :=
  toLex (s.toList.map Char.toLower, s.toList)

theorem lcCompare_lt_iff (s t : String) : lcCompare s t < 0 ↔ lcKey s < lcKey t := by
  unfold lcCompare lcKey
  rw [Prod.Lex.lt_iff]
  simp only [String.toList]
  split_ifs with h1 h2 h3 h4
  · simp [h1]
  · constructor
    · intro h
      omega
    · rintro (h | ⟨heq, _⟩)
      · exact absurd h h1
      · rw [heq] at h2
        exact absurd h2 (lt_irrefl _)
  · have heq : s.data.map Char.toLower = t.data.map Char.toLower :=
      le_antisymm (le_of_not_lt h2) (le_of_not_lt h1)
    simp [heq, h3]
  · constructor
    · intro h
      omega
    · rintro (h | ⟨_, h⟩)
      · exact absurd h h1
      · exact absurd h h3
  · constructor
    · intro h
      omega
    · rintro (h | ⟨_, h⟩)
      · exact absurd h h1
      · exact absurd h h3

theorem lcCompare_le_iff (s t : String) : lcCompare s t ≤ 0 ↔ lcKey s ≤ lcKey t := by
  unfold lcCompare lcKey
  rw [Prod.Lex.le_iff]
  simp only [String.toList]
  split_ifs with h1 h2 h3 h4
  · simp [h1]
  · constructor
    · intro h
      omega
    · rintro (h | ⟨heq, _⟩)
      · exact absurd h h1
      · rw [heq] at h2
        exact absurd h2 (lt_irrefl _)
  · have heq : s.data.map Char.toLower = t.data.map Char.toLower :=
      le_antisymm (le_of_not_lt h2) (le_of_not_lt h1)
    simp [heq, le_of_lt h3]
  · have heq : s.data.map Char.toLower = t.data.map Char.toLower :=
      le_antisymm (le_of_not_lt h2) (le_of_not_lt h1)
    constructor
    · intro h
      omega
    · rintro (h | ⟨_, h⟩)
      · exact absurd h h1
      · exact absurd h4 (not_lt.mpr h)
  · have heq : s.data.map Char.toLower = t.data.map Char.toLower :=
      le_antisymm (le_of_not_lt h2) (le_of_not_lt h1)
    have heq2 : s.data = t.data := le_antisymm (le_of_not_lt h4) (le_of_not_lt h3)
    simp [heq, heq2]

/-- The ordering policy of the amended claim on x values: a value with a
finite month index precedes one with a larger index and every value with
the sentinel index, and two sentinel values compare by the locale
comparison of their stringified forms. There is no whole-axis lexical
fallback. -/
def xOrderSpec (a b : Value) : Prop :=
  match monthIndex (jsToString a), monthIndex (jsToString b) with
  | some i, some j => i ≤ j
  | some _, none => True
  | none, some _ => False
  | none, none => lcCompare (jsToString a) (jsToString b) ≤ 0

theorem xOrderSpec_of_cmp_neg {a b : Value} (h : pivotCmp a b < 0) : xOrderSpec a b := by
  rcases hma : monthIndex (jsToString a) with _ | i <;>
    rcases hmb : monthIndex (jsToString b) with _ | j <;>
      simp only [pivotCmp, xOrderSpec, hma, hmb] at h ⊢
  all_goals omega

theorem xOrderSpec_of_cmp_nonneg {a b : Value} (h : ¬ pivotCmp a b < 0) : xOrderSpec b a := by
  rcases hma : monthIndex (jsToString a) with _ | i <;>
    rcases hmb : monthIndex (jsToString b) with _ | j <;>
      simp only [pivotCmp, xOrderSpec, hma, hmb] at h ⊢
  all_goals first
    | omega
    | (rw [lcCompare_le_iff]
       rw [lcCompare_lt_iff] at h
       exact le_of_not_lt h)

theorem xOrderSpec_trans : Transitive xOrderSpec := by
  intro a b c hab hbc
  rcases hma : monthIndex (jsToString a) with _ | i <;>
    rcases hmb : monthIndex (jsToString b) with _ | j <;>
      rcases hmc : monthIndex (jsToString c) with _ | k <;>
        simp only [xOrderSpec, hma, hmb, hmc] at hab hbc ⊢
  all_goals first
    | omega
    | exact hab.elim
    | exact hbc.elim
    | (rw [lcCompare_le_iff] at hab hbc ⊢
       exact le_trans hab hbc)

theorem pairwise_insertSorted {a : Value} {l : List Value}
    (h : List.Pairwise xOrderSpec l) : List.Pairwise xOrderSpec (insertSorted a l) := by
  induction l with
  | nil => simp [insertSorted]
  | cons b t ih =>
      rw [List.pairwise_cons] at h
      unfold insertSorted
      by_cases hc : pivotCmp a b < 0
      · rw [if_pos hc]
        refine List.Pairwise.cons ?_ (List.Pairwise.cons h.1 h.2)
        intro y hy
        rcases List.mem_cons.mp hy with rfl | hy1
        · exact xOrderSpec_of_cmp_neg hc
        · exact xOrderSpec_trans (xOrderSpec_of_cmp_neg hc) (h.1 y hy1)
      · rw [if_neg hc]
        refine List.Pairwise.cons ?_ (ih h.2)
        intro y hy
        rcases mem_insertSorted.mp hy with rfl | hy1
        · exact xOrderSpec_of_cmp_nonneg hc
        · exact h.1 y hy1

theorem sortJS_pairwise (l : List Value) : List.Pairwise xOrderSpec (sortJS l) := by
  have main : ∀ (l acc : List Value), List.Pairwise xOrderSpec acc →
      List.Pairwise xOrderSpec (l.foldl (fun acc a => insertSorted a acc) acc) := by
    intro l
    induction l with
    | nil => exact fun acc h => h
    | cons a t ih =>
        intro acc h
        simp only [List.foldl_cons]
        exact ih _ (pairwise_insertSorted h)
  exact main l [] List.Pairwise.nil

theorem insertSorted_perm (a : Value) (l : List Value) :
    (insertSorted a l).Perm (a :: l) := by
  induction l with
  | nil => exact List.Perm.refl _
  | cons b t ih =>
      unfold insertSorted
      by_cases hc : pivotCmp a b < 0
      · rw [if_pos hc]
      · rw [if_neg hc]
        exact (List.Perm.cons b ih).trans (List.Perm.swap a b t)

theorem sortJS_perm (l : List Value) : (sortJS l).Perm l := by
  have main : ∀ (l acc : List Value),
      (l.foldl (fun acc a => insertSorted a acc) acc).Perm (acc ++ l) := by
    intro l
    induction l with
    | nil => simp
    | cons a t ih =>
        intro acc
        simp only [List.foldl_cons]
        refine (ih (insertSorted a acc)).trans ?_
        refine (List.Perm.append_right t (insertSorted_perm a acc)).trans ?_
        exact List.perm_middle.symm
  simpa using main l []

/-- C2 counterexample: on the non-time axis fruit, the pivot sort still
places Jan 2024 (finite month index) before every other value, so Apple
does not precede Jan 2024 and no whole-axis lexical fallback exists. -/
theorem c2_counterexample :
    isTimeLikeAxis (some "fruit")
      [Value.str "Jan 2024", Value.str "Apple", Value.str "Zebra",
       Value.str "Banana", Value.str "Cat"] = false ∧
    (pivotData
      [[("fruit", Value.str "Jan 2024"), ("k", Value.str "A"), ("v", Value.num 1)],
       [("fruit", Value.str "Apple"), ("k", Value.str "A"), ("v", Value.num 1)],
       [("fruit", Value.str "Zebra"), ("k", Value.str "A"), ("v", Value.num 1)],
       [("fruit", Value.str "Banana"), ("k", Value.str "A"), ("v", Value.num 1)],
       [("fruit", Value.str "Cat"), ("k", Value.str "A"), ("v", Value.num 1)]]
      "fruit" "k" "v").data.map (fun w => lookupField w "fruit") =
      [some (Value.str "Jan 2024"), some (Value.str "Apple"), some (Value.str "Banana"),
       some (Value.str "Cat"), some (Value.str "Zebra")] ∧
    ¬ (pivotData
      [[("fruit", Value.str "Jan 2024"), ("k", Value.str "A"), ("v", Value.num 1)],
       [("fruit", Value.str "Apple"), ("k", Value.str "A"), ("v", Value.num 1)],
       [("fruit", Value.str "Zebra"), ("k", Value.str "A"), ("v", Value.num 1)],
       [("fruit", Value.str "Banana"), ("k", Value.str "A"), ("v", Value.num 1)],
       [("fruit", Value.str "Cat"), ("k", Value.str "A"), ("v", Value.num 1)]]
      "fruit" "k" "v").data.map (fun w => lookupField w "fruit") =
      [some (Value.str "Apple"), some (Value.str "Banana"), some (Value.str "Cat"),
       some (Value.str "Jan 2024"), some (Value.str "Zebra")] := by
  refine ⟨by decide, by decide, by decide⟩

/-- C2 (amended): the pivot sort emits a permutation of the distinct x
values ordered so that finite month indexes come first in ascending
index order and sentinel values follow, compared by the locale model;
the same comparator applies whether or not the axis is time-like, so on
the non-time fruit axis Jan 2024 still precedes Apple. -/
theorem c2_ordering_policy :
    (∀ l : List Value, (sortJS l).Perm l ∧ List.Pairwise xOrderSpec (sortJS l)) ∧
    isTimeLikeAxis (some "fruit")
      [Value.str "Jan 2024", Value.str "Apple", Value.str "Zebra",
       Value.str "Banana", Value.str "Cat"] = false ∧
    (pivotData
      [[("fruit", Value.str "Jan 2024"), ("k", Value.str "A"), ("v", Value.num 1)],
       [("fruit", Value.str "Apple"), ("k", Value.str "A"), ("v", Value.num 1)],
       [("fruit", Value.str "Zebra"), ("k", Value.str "A"), ("v", Value.num 1)],
       [("fruit", Value.str "Banana"), ("k", Value.str "A"), ("v", Value.num 1)],
       [("fruit", Value.str "Cat"), ("k", Value.str "A"), ("v", Value.num 1)]]
      "fruit" "k" "v").data.map (fun w => lookupField w "fruit") =
      [some (Value.str "Jan 2024"), some (Value.str "Apple"), some (Value.str "Banana"),
       some (Value.str "Cat"), some (Value.str "Zebra")] :=
  ⟨fun l => ⟨sortJS_perm l, sortJS_pairwise l⟩, by decide, by decide⟩

end GptSqlFrontend
